import Mathlib

/-!
# mqueue: the outbound message queue of yagpdb

A shallow embedding of `common/mqueue/mqueue.go` and theorems about it.

* Go `int64` ids and channel handles are `Int` (no arithmetic is done on them).
* Package-level variables (`currentlyProcessing`, `sources`, `started`) are passed
  explicitly.
* The goroutines of the package (the poller loop of `startPolling`, one `process`
  goroutine per dispatched element) are interleaved through an explicit list of
  events; every event is one critical section or one blocking call of the source.
* External calls (`store.FindAll`, `store.Save`, `json.Unmarshal`, `json.Marshal`,
  `ChannelMessageSend`, `ChannelMessageSendEmbed`) are parameters or oracles; their
  invocations are recorded in a trace.
* The retry loop of `process` has no bound in the source; it is embedded with a fuel
  argument that counts loop iterations, and a flag tells whether the loop was left.
* Log calls are recorded in the trace with their fixed message text only.
-/

namespace MQueue

/-! ## Data model -/

/-- The row type `QueuedElement` of table `mqueue` (columns of `InitStores`). -/
structure QueuedElement where
  ID : Int
  Source : String
  SourceID : String
  MessageStr : String
  MessageEmbed : String
  Channel : String
  Processed : Bool
  deriving DecidableEq, Repr

/-! ## The in-flight tracker `currentlyProcessing` -/

/-- Lines 202-207 of `process`: scan `currentlyProcessing` and cut out the first
index holding `id`, then stop. -/
def removeProcessing : List Int → Int → List Int
  | [], _ => []
  | v :: rest, id => if v = id then rest else v :: removeProcessing rest id

/-- Lines 179-187 of `poll`: the `OUTER` loop over the found elements. An element
whose id is found in the snapshot `processing` is skipped; any other one is appended
to `currentlyProcessing` and a `process` goroutine is started for it. The result is
the new `currentlyProcessing` and the elements given to `go process`, in order. -/
def pollInsert (processing : List Int) :
    List QueuedElement → List Int → List QueuedElement → List Int × List QueuedElement
  | [], cur, launched => (cur, launched)
  | v :: rest, cur, launched =>
    if processing.any (fun current => decide (v.ID = current)) then
      pollInsert processing rest cur launched
    else
      pollInsert processing rest (cur ++ [v.ID]) (launched ++ [v])

/-- The function `poll` run without interruption on tracker `cur`: the snapshot of
lines 166-169 is a copy of `cur`; `found` is the result of `store.FindAll`, `none` for
an error, in which case `poll` returns at line 174; else the insert loop runs on the
tracker. The result is the tracker afterwards and the elements given to `go process`. -/
def poll (cur : List Int) (found : Option (List QueuedElement)) :
    List Int × List QueuedElement :=
  let processing := cur
  match found with
  | none => (cur, [])
  | some elems => pollInsert processing elems cur []

/-- Shared state seen by the poller goroutine and the `process` goroutines.
`processing` is the local snapshot of a `poll` call that has passed line 169 and has
not reached line 177 yet; `active` lists the ids of the `process` goroutines that were
started and have not run their cleanup yet. -/
structure Engine where
  currentlyProcessing : List Int
  processing : Option (List Int)
  active : List Int
  deriving DecidableEq, Repr

/-- The state at package initialisation: `make([]int64, 0)`, no poll in progress, no
worker. -/
def Engine.init : Engine :=
  { currentlyProcessing := [], processing := none, active := [] }

/-- One atomic step of one goroutine. -/
inductive Event where
  /-- Lines 166-169 of `poll`: copy `currentlyProcessing` under the read lock. -/
  | pollSnapshot
  /-- Lines 171-175 of `poll`: `store.FindAll` failed, `poll` returns. -/
  | pollFindFailed
  /-- Lines 171-188 of `poll`: `store.FindAll` returned `elems`, followed by the
  insert loop under the write lock. -/
  | pollFound (elems : List QueuedElement)
  /-- Lines 201-208 of `process`: the worker for `id` removes its id under the write
  lock and ends. -/
  | workerCleanup (id : Int)
  deriving DecidableEq, Repr

/-- Effect of one event. `poll` is only called from the single `startPolling` loop, so
a snapshot is taken only when no poll is in progress and the insert loop only runs
after a snapshot; a cleanup only runs in a goroutine that was started. An event that
cannot happen in the current state leaves the state unchanged. -/
def Engine.step (s : Engine) : Event → Engine
  | .pollSnapshot =>
    match s.processing with
    | none => { s with processing := some s.currentlyProcessing }
    | some _ => s
  | .pollFindFailed => { s with processing := none }
  | .pollFound elems =>
    match s.processing with
    | none => s
    | some processing =>
      let r := pollInsert processing elems s.currentlyProcessing []
      { currentlyProcessing := r.1, processing := none,
        active := s.active ++ r.2.map (fun v => v.ID) }
  | .workerCleanup id =>
    if id ∈ s.active then
      { s with currentlyProcessing := removeProcessing s.currentlyProcessing id,
               active := s.active.erase id }
    else s

/-- Run a schedule of events from a state. -/
def Engine.run (s : Engine) (events : List Event) : Engine :=
  events.foldl Engine.step s

/-- What the claim assumes of the store: the ids of one `FindAll` result are pairwise
distinct (`id` is the primary key). -/
def Event.distinctIds : Event → Prop
  | .pollFound elems => (elems.map (fun v => v.ID)).Nodup
  | _ => True

/-- The invariant carried along a schedule. -/
def Engine.Inv (s : Engine) : Prop :=
  s.currentlyProcessing.Nodup ∧
  s.active.Perm s.currentlyProcessing ∧
  ∀ processing, s.processing = some processing → ∀ id ∈ s.currentlyProcessing, id ∈ processing


/-! ## `strconv.ParseInt(s, 10, 64)` -/

/-- The two error kinds of `strconv`. -/
inductive NumError where
  | ErrSyntax
  | ErrRange
  deriving DecidableEq, Repr

/-- Digit loop of `strconv.ParseUint` for base 10 and bit size 64, with `n` the value
read so far. A byte that is not a decimal digit gives `(0, ErrSyntax)`; when the value
leaves the `uint64` range the loop stops with `(1<<64 - 1, ErrRange)`. -/
def parseUintLoop : List Char → Nat → Nat × Option NumError
  | [], n => (n, none)
  | d :: rest, n =>
    if 48 ≤ d.toNat ∧ d.toNat ≤ 57 then
      let v := d.toNat - 48
      if n ≥ (2 ^ 64 - 1) / 10 + 1 then (2 ^ 64 - 1, some .ErrRange)
      else
        let n10 := n * 10
        let n1 := (n10 + v) % 2 ^ 64
        if n1 < n10 ∨ n1 > 2 ^ 64 - 1 then (2 ^ 64 - 1, some .ErrRange)
        else parseUintLoop rest n1
    else (0, some .ErrSyntax)

/-- Go `strconv.ParseUint(s, 10, 64)` on the bytes of `s`. -/
def ParseUint (s : List Char) : Nat × Option NumError :=
  match s with
  | [] => (0, some .ErrSyntax)
  | _ => parseUintLoop s 0

/-- Go `strconv.ParseInt(s, 10, 64)`: an optional sign, then `ParseUint`, then the
range check against `1 << 63`. The second component is the error, `none` for `nil`. -/
def ParseInt (s : String) : Int × Option NumError :=
  match s.toList with
  | [] => (0, some .ErrSyntax)
  | c :: rest =>
    let neg : Bool := decide (c.toNat = 45)
    let digits := if c.toNat = 43 ∨ c.toNat = 45 then rest else c :: rest
    let r := ParseUint digits
    if r.2 = some .ErrSyntax then (0, r.2)
    else if !neg && decide (r.1 ≥ 2 ^ 63) then (2 ^ 63 - 1, some .ErrRange)
    else if neg && decide (r.1 > 2 ^ 63) then (-(2 ^ 63), some .ErrRange)
    else (if neg then -(r.1 : Int) else (r.1 : Int), none)

/-! ## The delivery worker `process` -/

/-- The fields of `*discordgo.RESTError` read by `process`: the status code of
`Response` and the code of `Message`, each `none` when the pointer is nil. -/
structure RESTError where
  Response : Option Int
  Message : Option Int
  deriving DecidableEq, Repr

/-- A non-nil `error` returned by a delivery call: either a `*discordgo.RESTError` or
any other error value (network failure, timeout). -/
inductive SendError where
  | rest (e : RESTError)
  | other
  deriving DecidableEq, Repr

/-- Externally visible calls made by `process`, in the order they are made. The type
`E` stands for `discordgo.MessageEmbed`. -/
inductive Action (E : Type) where
  | Log (msg : String)
  | ChannelMessageSend (channelID : Int) (content : String)
  | ChannelMessageSendEmbed (channelID : Int) (embed : E)
  | HandleMQueueError (elem : QueuedElement) (err : SendError)
  | Sleep
  | Save (elem : QueuedElement)
  deriving DecidableEq, Repr

/-- Everything outside the package that a run of `process` depends on. -/
structure Env (E : Type) where
  /-- Keys of the map `sources`. -/
  sources : List String
  /-- Result of `json.Unmarshal([]byte(s), &embed)`: the value of `embed` afterwards
  (`none` for nil) and whether an error was returned. -/
  unmarshal : String → Option E × Bool
  /-- Error returned by the delivery call of loop iteration `n` (`none` for nil). -/
  send : Nat → Option SendError
  /-- Whether `store.Save` returns an error. -/
  saveErr : Bool

/-- The condition of lines 238-239: the error is a `*discordgo.RESTError` whose
response status is in `[400, 500)` or whose message code is not zero. -/
def isClientError : SendError → Bool
  | .rest e =>
    (match e.Response with
      | some code => decide (code ≥ 400) && decide (code < 500)
      | none => false) ||
    (match e.Message with
      | some code => decide (code ≠ 0)
      | none => false)
  | .other => false

/-- Lines 225-232: the delivery call chosen by one loop iteration, `none` when the
iteration takes the final `else` branch. -/
def sendCall {E : Type} (elem : QueuedElement) (parsedChannel : Int)
    (embed : Option E) : Option (Action E) :=
  if elem.MessageStr ≠ "" then
    some (.ChannelMessageSend parsedChannel elem.MessageStr)
  else
    match embed with
    | some e => some (.ChannelMessageSendEmbed parsedChannel e)
    | none => none

/-- Lines 223-249: the `for` loop of `process`. `fuel` bounds the number of
iterations that are followed, `n` counts the iterations already made. The result is
the calls made and whether the loop was left by `break`. -/
def processLoop {E : Type} (env : Env E) (elem : QueuedElement)
    (parsedChannel : Int) (embed : Option E) : Nat → Nat → List (Action E) × Bool
  | 0, _ => ([], false)
  | fuel + 1, n =>
    match sendCall elem parsedChannel embed with
    | none => ([.Log "MQueue: Both MessageEmbed and MessageStr empty"], true)
    | some call =>
      match env.send n with
      | none => ([call], true)
      | some err =>
        if isClientError err then
          if elem.Source ∈ env.sources then
            ([call, .HandleMQueueError elem err], true)
          else ([call], true)
        else
          let r := processLoop env elem parsedChannel embed fuel (n + 1)
          (call :: .Log "MQueue: Non-discord related error when sending message, retrying. "
            :: .Sleep :: r.1, r.2)

/-- Lines 211-217: the value of `embed` before the loop, with the log entry of a
failed decode. -/
def decodeEmbed {E : Type} (env : Env E) (elem : QueuedElement) :
    Option E × List (Action E) :=
  if elem.MessageEmbed.length > 0 then
    let r := env.unmarshal elem.MessageEmbed
    (r.1, if r.2 then [.Log "MQueue: Failed decoding message embed"] else [])
  else (none, [])

/-- Lines 219-222: the parsed channel with the log entry of a failed parse. -/
def parseChannel {E : Type} (elem : QueuedElement) : Int × List (Action E) :=
  let r := ParseInt elem.Channel
  (r.1, if r.2.isSome then [.Log "Failed parsing Channel"] else [])

/-- Lines 194-209: the deferred function of `process`, given the tracker it finds. -/
def processCleanup {E : Type} (env : Env E) (elem : QueuedElement)
    (cur : List Int) : List (Action E) × QueuedElement × List Int :=
  let done := { elem with Processed := true }
  (.Save done ::
    (if env.saveErr then [.Log "MQueue: Failed marking elem as processed"] else []),
   done, removeProcessing cur done.ID)

/-- Outcome of following `process` for a bounded number of loop iterations. -/
structure ProcessResult (E : Type) where
  /-- Calls made so far. -/
  trace : List (Action E)
  /-- Whether `process` has returned. -/
  returned : Bool
  /-- The element as the worker holds it. -/
  elem : QueuedElement
  /-- The tracker: untouched while the worker runs, after the removal once it has
  returned. -/
  currentlyProcessing : List Int

/-- The function `process`, followed for at most `fuel` loop iterations, started with
tracker contents `cur`. -/
def process {E : Type} (env : Env E) (fuel : Nat) (cur : List Int)
    (elem : QueuedElement) : ProcessResult E :=
  let d := decodeEmbed env elem
  let c := parseChannel (E := E) elem
  let r := processLoop env elem c.1 d.1 fuel 0
  if r.2 then
    let fin := processCleanup env elem cur
    { trace := d.2 ++ c.2 ++ r.1 ++ fin.1, returned := true, elem := fin.2.1,
      currentlyProcessing := fin.2.2 }
  else
    { trace := d.2 ++ c.2 ++ r.1, returned := false, elem := elem,
      currentlyProcessing := cur }

/-- Delivery calls of a trace. -/
def sends {E : Type} (t : List (Action E)) : List (Action E) :=
  t.filter fun a =>
    match a with
    | .ChannelMessageSend _ _ => true
    | .ChannelMessageSendEmbed _ _ => true
    | _ => false

/-- Failure callbacks of a trace. -/
def callbacks {E : Type} (t : List (Action E)) : List (Action E) :=
  t.filter fun a =>
    match a with
    | .HandleMQueueError _ _ => true
    | _ => false

/-- Store writes of a trace. -/
def saves {E : Type} (t : List (Action E)) : List (Action E) :=
  t.filter fun a =>
    match a with
    | .Save _ => true
    | _ => false

/-- Sleeps of a trace. -/
def sleeps {E : Type} (t : List (Action E)) : List (Action E) :=
  t.filter fun a =>
    match a with
    | .Sleep => true
    | _ => false

/-- The calls of `k` loop iterations that each end in the retry branch (lines
247-248) after the delivery call `call`. -/
def retryTrace {E : Type} (call : Action E) : Nat → List (Action E)
  | 0 => []
  | k + 1 =>
    call :: .Log "MQueue: Non-discord related error when sending message, retrying. "
      :: .Sleep :: retryTrace call k

/-- The delivery calls of iterations `n, ..., n + k - 1` all return an error that the
test of lines 238-239 rejects. -/
def Transient {E : Type} (env : Env E) (n k : Nat) : Prop :=
  ∀ i, i < k → ∃ err, env.send (n + i) = some err ∧ isClientError err = false

/-- The condition of the spec for a permanent failure: a REST error whose response
status lies in 400..499 or whose message carries a non-zero code. -/
def ClientRejected (err : SendError) : Prop :=
  ∃ e, err = .rest e ∧
    ((∃ code, e.Response = some code ∧ 400 ≤ code ∧ code ≤ 499) ∨
     (∃ code, e.Message = some code ∧ code ≠ 0))

/-! ## Enqueueing -/

/-- The element `QueueMessageString` hands to `store.Insert`. Fields not named in the
composite literal have their zero value. -/
def QueueMessageString (source sourceID channel message : String) : QueuedElement :=
  { ID := 0, Source := source, SourceID := sourceID, Channel := channel,
    MessageStr := message, MessageEmbed := "", Processed := false }

/-- The element `QueueMessageEmbed` hands to `store.Insert`, `none` when it returns
without inserting. `marshal` is `json.Marshal` (`none` for an error) and the argument
`embed` is a pointer that may be nil. -/
def QueueMessageEmbed {E : Type} (marshal : Option E → Option String)
    (source sourceID channel : String) (embed : Option E) : Option QueuedElement :=
  match marshal embed with
  | none => none
  | some encoded =>
    some { ID := 0, Source := source, SourceID := sourceID, Channel := channel,
           MessageStr := "", MessageEmbed := encoded, Processed := false }

/-- A content field counts as populated when it is not the empty string. -/
def populated (s : String) : Bool := decide (s ≠ "")

/-! ## Lifecycle -/

/-- Where the `startPolling` goroutine is: not running, in its `select` loop, or
inside `shutdown`. -/
inductive Phase where
  | Stopped
  | Running
  | Draining
  deriving DecidableEq, Repr

/-- The flag `started` and the position of the poller goroutine. -/
structure Lifecycle where
  started : Bool
  phase : Phase
  deriving DecidableEq, Repr

/-- State at package initialisation. -/
def Lifecycle.init : Lifecycle := { started := false, phase := .Stopped }

/-- The panic of line 121. -/
inductive LifecycleError where
  | AlreadyStarted
  deriving DecidableEq, Repr

/-- Lines 118-128 of `startPolling`: panic when `started` is set, else set it and
enter the loop. -/
def startPolling (s : Lifecycle) : Except LifecycleError Lifecycle :=
  if s.started then .error .AlreadyStarted
  else .ok { started := true, phase := .Running }

/-- Lines 106-115 and 130-131: `StopBot` returns at once when `started` is unset;
else it sends on `stopChan`, which the loop receives when it is running, and the
poller goroutine enters `shutdown`. With no receiver the send blocks and nothing
changes. -/
def StopBot (s : Lifecycle) : Lifecycle :=
  if !s.started then s
  else
    match s.phase with
    | .Running => { s with phase := .Draining }
    | _ => s

/-- Lines 131-132: `shutdown` has returned and `startPolling` returns. No assignment
to `started` is made. -/
def shutdownReturn (s : Lifecycle) : Lifecycle :=
  match s.phase with
  | .Draining => { s with phase := .Stopped }
  | _ => s

/-- A completed stop: `StopBot` followed by the return of `shutdown`. -/
def stopCompleted (s : Lifecycle) : Lifecycle := shutdownReturn (StopBot s)

/-- Operations on the lifecycle. -/
inductive LifecycleOp where
  | start
  | stop
  | drained
  deriving DecidableEq, Repr

/-- Apply one operation; a start that panics leaves the state as it is. -/
def Lifecycle.apply (s : Lifecycle) : LifecycleOp → Lifecycle
  | .start =>
    match startPolling s with
    | .ok t => t
    | .error _ => s
  | .stop => StopBot s
  | .drained => shutdownReturn s

/-! ## Shutdown -/

/-- Calls made by `shutdown`. -/
inductive ShutdownAction where
  | ReadLen (num : Nat)
  | Sleep
  | Done
  deriving DecidableEq, Repr

/-- Lines 152-160: the loop of `shutdown` with `left` iterations to go; `sizes i` is
`len(currentlyProcessing)` as read in iteration `i`. -/
def shutdownLoop (sizes : Nat → Nat) : Nat → Nat → List ShutdownAction
  | 0, _ => []
  | left + 1, i =>
    let num := sizes i
    if num < 1 then [.ReadLen num]
    else .ReadLen num :: .Sleep :: shutdownLoop sizes left (i + 1)

/-- The function `shutdown`: at most ten iterations, then `wg.Done()`. -/
def shutdown (sizes : Nat → Nat) : List ShutdownAction :=
  shutdownLoop sizes 10 0 ++ [.Done]

/-- Number of leading non-zero sizes among the first ten. -/
def leadingNonZero (sizes : Nat → Nat) : Nat :=
  ((List.range 10).takeWhile (fun i => decide (sizes i ≠ 0))).length

/-- Whether a call of `shutdown` is a read of the tracker length. -/
def ShutdownAction.isRead : ShutdownAction → Bool
  | .ReadLen _ => true
  | _ => false

/-- Number of leading non-zero sizes among `sizes i, ..., sizes (i + left - 1)`. -/
def leadingFrom (sizes : Nat → Nat) (left i : Nat) : Nat :=
  ((List.range' i left).takeWhile (fun j => decide (sizes j ≠ 0))).length

/-! ## Example data -/

/-- An environment for examples: handler registered for `reminders` only, a decoder
that accepts every text, and the listed delivery outcomes followed by successes. -/
def demoEnv (outcomes : List (Option SendError)) (saveErr : Bool) : Env String :=
  { sources := ["reminders"],
    unmarshal := fun s => (some s, false),
    send := fun n => outcomes.getD n none,
    saveErr := saveErr }

/-- The text record of the scenario example, with the id the store gave it. -/
def demoElem : QueuedElement :=
  { QueueMessageString "reminders" "42" "123" "hi" with ID := 7 }

/-- An environment for examples in which `json.Unmarshal` always returns an error and
leaves `embed` at the value `after`. -/
def brokenEnv (after : Option String) (outcomes : List (Option SendError)) : Env String :=
  { sources := ["reminders"],
    unmarshal := fun _ => (after, true),
    send := fun n => outcomes.getD n none,
    saveErr := false }

/-- An encoder for examples, standing for `json.Marshal` on a payload type with two
values: a nil pointer is encoded as `null`, the values as `true` and `false`. -/
def demoMarshal : Option Bool → Option String
  | none => some "null"
  | some true => some "true"
  | some false => some "false"

/-! ## Helper lemmas: tracker -/

theorem removeProcessing_eq_erase (cur : List Int) (id : Int) :
    removeProcessing cur id = cur.erase id := by
  induction cur with
  | nil => rfl
  | cons v rest ih =>
    by_cases h : v = id
    · simp [removeProcessing, h]
    · simp [removeProcessing, h, List.erase_cons_tail, ih]

theorem pollInsert_eq (processing : List Int) (elems : List QueuedElement)
    (cur : List Int) (launched : List QueuedElement) :
    pollInsert processing elems cur launched =
      (cur ++ (elems.filter (fun v => decide (v.ID ∉ processing))).map (fun v => v.ID),
       launched ++ elems.filter (fun v => decide (v.ID ∉ processing))) := by
  induction elems generalizing cur launched with
  | nil => simp [pollInsert]
  | cons v rest ih =>
    by_cases h : v.ID ∈ processing
    · have hany : processing.any (fun current => decide (v.ID = current)) = true := by
        simp [List.any_eq_true, h]
      simp [pollInsert, hany, ih, h]
    · have hany : ¬ processing.any (fun current => decide (v.ID = current)) = true := by
        simp [List.any_eq_true, h]
      simp [pollInsert, hany, ih, h]

theorem Engine.inv_init : Engine.init.Inv := by
  simp [Engine.Inv, Engine.init]

theorem Engine.inv_step (s : Engine) (e : Event) (hs : s.Inv) (he : e.distinctIds) :
    (s.step e).Inv := by
  obtain ⟨hnd, hperm, hsub⟩ := hs
  cases e with
  | pollSnapshot =>
    cases hp : s.processing with
    | none =>
      simp only [Engine.step, hp]
      refine ⟨hnd, hperm, ?_⟩
      intro processing h id hid
      simp at h
      subst h
      exact hid
    | some p =>
      simp only [Engine.step, hp]
      exact ⟨hnd, hperm, fun processing h => hsub processing (hp ▸ h)⟩
  | pollFindFailed =>
    simp only [Engine.step]
    exact ⟨hnd, hperm, by simp⟩
  | pollFound elems =>
    cases hp : s.processing with
    | none =>
      simp only [Engine.step, hp]
      exact ⟨hnd, hperm, fun processing h => hsub processing (hp ▸ h)⟩
    | some p =>
      simp only [Engine.step, hp, pollInsert_eq, List.nil_append]
      have hd : (elems.map (fun v => v.ID)).Nodup := he
      have hnew : ((elems.filter (fun v => decide (v.ID ∉ p))).map (fun v => v.ID)).Nodup :=
        (List.filter_sublist elems).map (fun v => v.ID) |>.nodup hd
      refine ⟨?_, ?_, by simp⟩
      · rw [List.nodup_append]
        refine ⟨hnd, hnew, ?_⟩
        intro id h1 h2
        have h3 := hsub p hp id h1
        simp only [List.mem_map, List.mem_filter] at h2
        obtain ⟨v, ⟨_, hv⟩, rfl⟩ := h2
        simp at hv
        exact hv h3
      · exact hperm.append_right _
  | workerCleanup id =>
    by_cases h : id ∈ s.active
    · simp only [Engine.step, h, if_true, removeProcessing_eq_erase]
      refine ⟨hnd.erase id, hperm.erase id, ?_⟩
      intro processing hp x hx
      exact hsub processing hp x (List.mem_of_mem_erase hx)
    · simp only [Engine.step, h, if_false]
      exact ⟨hnd, hperm, hsub⟩

theorem Engine.inv_run (events : List Event) (s : Engine) (hs : s.Inv)
    (he : ∀ e ∈ events, e.distinctIds) : (s.run events).Inv := by
  induction events generalizing s with
  | nil => exact hs
  | cons e rest ih =>
    simp only [Engine.run, List.foldl_cons]
    exact ih (s.step e) (Engine.inv_step s e hs (he e (by simp)))
      (fun x hx => he x (by simp [hx]))


/-- C1. Tracker uniqueness is an invariant of the engine: from the empty tracker, after
any schedule of poll snapshots, store results with pairwise distinct ids, failed store
queries and worker cleanups (in any interleaving, cleanups between a snapshot and its
insert loop included), no id occurs twice in `currentlyProcessing`, the running
workers are exactly the tracked ids, and no two running workers have the same id. -/
theorem tracker_unique_invariant (events : List Event)
    (hids : ∀ e ∈ events, e.distinctIds) :
    (Engine.init.run events).currentlyProcessing.Nodup ∧
    (Engine.init.run events).active.Perm (Engine.init.run events).currentlyProcessing ∧
    (Engine.init.run events).active.Nodup ∧
    ∀ id, (Engine.init.run events).currentlyProcessing.count id ≤ 1 ∧
          (Engine.init.run events).active.count id ≤ 1 := by
  have h := Engine.inv_run events Engine.init Engine.inv_init hids
  obtain ⟨hnd, hperm, _⟩ := h
  have hact : (Engine.init.run events).active.Nodup := hperm.nodup_iff.mpr hnd
  exact ⟨hnd, hperm, hact, fun id =>
    ⟨List.nodup_iff_count_le_one.mp hnd id, List.nodup_iff_count_le_one.mp hact id⟩⟩

/-- Witness for C1: two polls over the same two rows, with the cleanup of worker 1
between the second snapshot and its insert loop. -/
theorem tracker_unique_invariant_witness :
    (Engine.init.run
      [.pollSnapshot,
       .pollFound [QueueMessageString "a" "1" "10" "x",
                   { QueueMessageString "a" "2" "10" "y" with ID := 1 }],
       .pollSnapshot,
       .workerCleanup 1,
       .pollFound [QueueMessageString "a" "1" "10" "x",
                   { QueueMessageString "a" "2" "10" "y" with ID := 1 }]]).currentlyProcessing
      = [0] ∧
    (Engine.init.run
      [.pollSnapshot,
       .pollFound [QueueMessageString "a" "1" "10" "x",
                   { QueueMessageString "a" "2" "10" "y" with ID := 1 }],
       .pollSnapshot,
       .workerCleanup 1,
       .pollFound [QueueMessageString "a" "1" "10" "x",
                   { QueueMessageString "a" "2" "10" "y" with ID := 1 }]]).currentlyProcessing.Nodup :=
  ⟨by decide,
   (tracker_unique_invariant _ (by
      intro e he
      simp only [List.mem_cons, List.mem_singleton, List.not_mem_nil, or_false] at he
      rcases he with rfl | rfl | rfl | rfl | rfl <;>
        simp [Event.distinctIds, QueueMessageString])).1⟩


/-! ## Helper lemmas: the worker loop -/

theorem sendCall_cases {E : Type} (elem : QueuedElement) (ch : Int)
    (embed : Option E) (call : Action E) (h : sendCall elem ch embed = some call) :
    (elem.MessageStr ≠ "" ∧ call = .ChannelMessageSend ch elem.MessageStr) ∨
    (elem.MessageStr = "" ∧ ∃ e, embed = some e ∧ call = .ChannelMessageSendEmbed ch e) := by
  unfold sendCall at h
  by_cases hs : elem.MessageStr = ""
  · right
    cases embed with
    | none => simp [hs] at h
    | some e =>
      simp [hs] at h
      exact ⟨hs, e, rfl, h.symm⟩
  · left
    simp [hs] at h
    exact ⟨hs, h.symm⟩

theorem sends_retryTrace {E : Type} (elem : QueuedElement) (ch : Int)
    (embed : Option E) (call : Action E) (h : sendCall elem ch embed = some call)
    (k : Nat) : sends (retryTrace call k) = List.replicate k call := by
  induction k with
  | zero => rfl
  | succ k ih =>
    have ih2 : List.filter (fun a : Action E =>
        match a with
        | .ChannelMessageSend _ _ => true
        | .ChannelMessageSendEmbed _ _ => true
        | _ => false) (retryTrace call k) = List.replicate k call := ih
    rcases sendCall_cases elem ch embed call h with ⟨_, rfl⟩ | ⟨_, e, _, rfl⟩ <;>
      simp [sends, retryTrace, List.replicate_succ, ih2]

theorem callbacks_retryTrace {E : Type} (elem : QueuedElement) (ch : Int)
    (embed : Option E) (call : Action E) (h : sendCall elem ch embed = some call)
    (k : Nat) : callbacks (retryTrace call k) = [] := by
  induction k with
  | zero => rfl
  | succ k ih =>
    have ih2 : List.filter (fun a : Action E =>
        match a with
        | .HandleMQueueError _ _ => true
        | _ => false) (retryTrace call k) = [] := ih
    rcases sendCall_cases elem ch embed call h with ⟨_, rfl⟩ | ⟨_, e, _, rfl⟩ <;>
      simp [callbacks, retryTrace, ih2]

theorem saves_retryTrace {E : Type} (elem : QueuedElement) (ch : Int)
    (embed : Option E) (call : Action E) (h : sendCall elem ch embed = some call)
    (k : Nat) : saves (retryTrace call k) = [] := by
  induction k with
  | zero => rfl
  | succ k ih =>
    have ih2 : List.filter (fun a : Action E =>
        match a with
        | .Save _ => true
        | _ => false) (retryTrace call k) = [] := ih
    rcases sendCall_cases elem ch embed call h with ⟨_, rfl⟩ | ⟨_, e, _, rfl⟩ <;>
      simp [saves, retryTrace, ih2]

theorem sleeps_retryTrace {E : Type} (elem : QueuedElement) (ch : Int)
    (embed : Option E) (call : Action E) (h : sendCall elem ch embed = some call)
    (k : Nat) : sleeps (retryTrace call k) = List.replicate k .Sleep := by
  induction k with
  | zero => rfl
  | succ k ih =>
    have ih2 : List.filter (fun a : Action E =>
        match a with
        | .Sleep => true
        | _ => false) (retryTrace call k) = List.replicate k .Sleep := ih
    rcases sendCall_cases elem ch embed call h with ⟨_, rfl⟩ | ⟨_, e, _, rfl⟩ <;>
      simp [sleeps, retryTrace, List.replicate_succ, ih2]

theorem Transient.shift {E : Type} {env : Env E} {n k : Nat} {err : SendError}
    (h0 : env.send n = some err) (hc : isClientError err = false)
    (h : Transient env (n + 1) k) : Transient env n (k + 1) := by
  intro i hi
  cases i with
  | zero => exact ⟨err, by simpa using h0, hc⟩
  | succ j =>
    have := h j (by omega)
    have e : n + (j + 1) = n + 1 + j := by omega
    rw [e]
    exact this

/-- The three ways the loop can stand after `fuel` iterations when there is content to
send: still retrying, left after a successful call, left after a rejected call. -/
theorem processLoop_cases {E : Type} (env : Env E) (elem : QueuedElement)
    (ch : Int) (embed : Option E) (call : Action E)
    (hcall : sendCall elem ch embed = some call) (fuel n : Nat) :
    (Transient env n fuel ∧
      processLoop env elem ch embed fuel n = (retryTrace call fuel, false)) ∨
    (∃ k, k < fuel ∧ Transient env n k ∧ env.send (n + k) = none ∧
      processLoop env elem ch embed fuel n = (retryTrace call k ++ [call], true)) ∨
    (∃ k err, k < fuel ∧ Transient env n k ∧ env.send (n + k) = some err ∧
      isClientError err = true ∧
      processLoop env elem ch embed fuel n =
        (retryTrace call k ++
          call :: (if elem.Source ∈ env.sources then [.HandleMQueueError elem err] else []),
         true)) := by
  induction fuel generalizing n with
  | zero =>
    left
    exact ⟨fun i hi => absurd hi (Nat.not_lt_zero i), rfl⟩
  | succ fuel ih =>
    cases hs : env.send n with
    | none =>
      right; left
      refine ⟨0, Nat.succ_pos _, fun i hi => absurd hi (Nat.not_lt_zero i), by simpa using hs, ?_⟩
      simp [processLoop, hcall, hs, retryTrace]
    | some err =>
      by_cases hc : isClientError err = true
      · right; right
        refine ⟨0, err, Nat.succ_pos _, fun i hi => absurd hi (Nat.not_lt_zero i),
          by simpa using hs, hc, ?_⟩
        by_cases hsrc : elem.Source ∈ env.sources <;>
          simp [processLoop, hcall, hs, hc, hsrc, retryTrace]
      · have hc2 : isClientError err = false := by simpa using hc
        rcases ih (n + 1) with ⟨ht, hl⟩ | ⟨k, hk, ht, hn, hl⟩ | ⟨k, e, hk, ht, hn, he, hl⟩
        · left
          refine ⟨ht.shift hs hc2, ?_⟩
          simp [processLoop, hcall, hs, hc2, hl, retryTrace]
        · right; left
          refine ⟨k + 1, by omega, ht.shift hs hc2, ?_, ?_⟩
          · have e : n + (k + 1) = n + 1 + k := by omega
            rw [e]; exact hn
          · simp [processLoop, hcall, hs, hc2, hl, retryTrace]
        · right; right
          refine ⟨k + 1, e, by omega, ht.shift hs hc2, ?_, he, ?_⟩
          · have e2 : n + (k + 1) = n + 1 + k := by omega
            rw [e2]; exact hn
          · simp [processLoop, hcall, hs, hc2, hl, retryTrace]

/-- With nothing to send the loop is left in its first iteration. -/
theorem processLoop_no_content {E : Type} (env : Env E) (elem : QueuedElement)
    (ch : Int) (embed : Option E) (hcall : sendCall elem ch embed = none)
    (fuel n : Nat) :
    processLoop env elem ch embed (fuel + 1) n =
      ([.Log "MQueue: Both MessageEmbed and MessageStr empty"], true) := by
  simp [processLoop, hcall]


/-! ## Helper lemmas: one run of `process` -/

theorem sends_append {E : Type} (a b : List (Action E)) :
    sends (a ++ b) = sends a ++ sends b := by
  simp [sends]

theorem callbacks_append {E : Type} (a b : List (Action E)) :
    callbacks (a ++ b) = callbacks a ++ callbacks b := by
  simp [callbacks]

theorem saves_append {E : Type} (a b : List (Action E)) :
    saves (a ++ b) = saves a ++ saves b := by
  simp [saves]

theorem sleeps_append {E : Type} (a b : List (Action E)) :
    sleeps (a ++ b) = sleeps a ++ sleeps b := by
  simp [sleeps]

/-- The decode step makes no call but a log entry. -/
theorem decode_projections {E : Type} (env : Env E) (elem : QueuedElement) :
    sends (decodeEmbed env elem).2 = [] ∧ callbacks (decodeEmbed env elem).2 = [] ∧
    saves (decodeEmbed env elem).2 = [] ∧ sleeps (decodeEmbed env elem).2 = [] := by
  unfold decodeEmbed
  by_cases h1 : elem.MessageEmbed.length > 0 <;>
    by_cases h2 : (env.unmarshal elem.MessageEmbed).2 = true <;>
    simp [sends, callbacks, saves, sleeps, h1, h2]

/-- The channel parse makes no call but a log entry. -/
theorem parse_projections {E : Type} (elem : QueuedElement) :
    sends (parseChannel (E := E) elem).2 = [] ∧
    callbacks (parseChannel (E := E) elem).2 = [] ∧
    saves (parseChannel (E := E) elem).2 = [] ∧
    sleeps (parseChannel (E := E) elem).2 = [] := by
  unfold parseChannel
  by_cases h3 : (ParseInt elem.Channel).2.isSome = true <;>
    simp [sends, callbacks, saves, sleeps, h3]

/-- The deferred function writes the element once and makes no other call but a log
entry. -/
theorem cleanup_projections {E : Type} (env : Env E) (elem : QueuedElement)
    (cur : List Int) :
    sends (processCleanup env elem cur).1 = [] ∧
    callbacks (processCleanup env elem cur).1 = [] ∧
    saves (processCleanup env elem cur).1 = [.Save { elem with Processed := true }] ∧
    sleeps (processCleanup env elem cur).1 = [] := by
  unfold processCleanup
  by_cases h : env.saveErr = true <;> simp [sends, callbacks, saves, sleeps, h]

/-- The three ways a run with content to send can stand after `fuel` iterations. -/
theorem process_cases {E : Type} (env : Env E) (fuel : Nat) (cur : List Int)
    (elem : QueuedElement) (call : Action E)
    (hcall : sendCall elem (parseChannel (E := E) elem).1 (decodeEmbed env elem).1
      = some call) :
    (Transient env 0 fuel ∧
      process env fuel cur elem =
        { trace := (decodeEmbed env elem).2 ++ (parseChannel elem).2 ++ retryTrace call fuel,
          returned := false, elem := elem, currentlyProcessing := cur }) ∨
    (∃ k, k < fuel ∧ Transient env 0 k ∧ env.send k = none ∧
      process env fuel cur elem =
        { trace := (decodeEmbed env elem).2 ++ (parseChannel elem).2 ++
            (retryTrace call k ++ [call]) ++ (processCleanup env elem cur).1,
          returned := true, elem := { elem with Processed := true },
          currentlyProcessing := removeProcessing cur elem.ID }) ∨
    (∃ k err, k < fuel ∧ Transient env 0 k ∧ env.send k = some err ∧
      isClientError err = true ∧
      process env fuel cur elem =
        { trace := (decodeEmbed env elem).2 ++ (parseChannel elem).2 ++
            (retryTrace call k ++ call ::
              (if elem.Source ∈ env.sources then [.HandleMQueueError elem err] else [])) ++
            (processCleanup env elem cur).1,
          returned := true, elem := { elem with Processed := true },
          currentlyProcessing := removeProcessing cur elem.ID }) := by
  rcases processLoop_cases env elem _ _ call hcall fuel 0 with
    ⟨ht, hl⟩ | ⟨k, hk, ht, hn, hl⟩ | ⟨k, e, hk, ht, hn, he, hl⟩
  · left
    refine ⟨ht, ?_⟩
    simp [process, hl]
  · right; left
    refine ⟨k, hk, ht, by simpa using hn, ?_⟩
    simp [process, hl, processCleanup]
  · right; right
    refine ⟨k, e, hk, ht, by simpa using hn, he, ?_⟩
    simp [process, hl, processCleanup]

/-- A run with nothing to send returns in its first iteration without a call. -/
theorem process_no_content {E : Type} (env : Env E) (fuel : Nat) (cur : List Int)
    (elem : QueuedElement)
    (hcall : sendCall elem (parseChannel (E := E) elem).1 (decodeEmbed env elem).1
      = none) :
    process env (fuel + 1) cur elem =
      { trace := (decodeEmbed env elem).2 ++ (parseChannel elem).2 ++
          [.Log "MQueue: Both MessageEmbed and MessageStr empty"] ++
          (processCleanup env elem cur).1,
        returned := true, elem := { elem with Processed := true },
        currentlyProcessing := removeProcessing cur elem.ID } := by
  simp [process, processLoop_no_content env elem _ _ hcall, processCleanup]


theorem call_projections {E : Type} (elem : QueuedElement) (ch : Int)
    (embed : Option E) (call : Action E) (h : sendCall elem ch embed = some call)
    (t : List (Action E)) :
    sends (call :: t) = call :: sends t ∧ callbacks (call :: t) = callbacks t ∧
    saves (call :: t) = saves t ∧ sleeps (call :: t) = sleeps t := by
  rcases sendCall_cases elem ch embed call h with ⟨_, rfl⟩ | ⟨_, e, _, rfl⟩ <;>
    simp [sends, callbacks, saves, sleeps]

/-- Projections of the trace of a run that is still retrying after `k` iterations. -/
theorem retrying_projections {E : Type} (env : Env E) (elem : QueuedElement)
    (call : Action E)
    (hcall : sendCall elem (parseChannel (E := E) elem).1 (decodeEmbed env elem).1
      = some call) (k : Nat) :
    sends ((decodeEmbed env elem).2 ++ (parseChannel elem).2 ++ retryTrace call k)
      = List.replicate k call ∧
    callbacks ((decodeEmbed env elem).2 ++ (parseChannel elem).2 ++ retryTrace call k) = [] ∧
    saves ((decodeEmbed env elem).2 ++ (parseChannel elem).2 ++ retryTrace call k) = [] ∧
    sleeps ((decodeEmbed env elem).2 ++ (parseChannel elem).2 ++ retryTrace call k)
      = List.replicate k .Sleep := by
  obtain ⟨d1, d2, d3, d4⟩ := decode_projections env elem
  obtain ⟨p1, p2, p3, p4⟩ := parse_projections (E := E) elem
  refine ⟨?_, ?_, ?_, ?_⟩
  · simp only [sends_append, d1, p1, sends_retryTrace elem _ _ call hcall, List.nil_append]
  · simp only [callbacks_append, d2, p2, callbacks_retryTrace elem _ _ call hcall,
      List.nil_append]
  · simp only [saves_append, d3, p3, saves_retryTrace elem _ _ call hcall, List.nil_append]
  · simp only [sleeps_append, d4, p4, sleeps_retryTrace elem _ _ call hcall, List.nil_append]

/-- Projections of the trace of a run that returned after the call of iteration `k`,
with `tail` the callback made for it, if any. -/
theorem returned_projections {E : Type} (env : Env E) (elem : QueuedElement)
    (cur : List Int) (call : Action E)
    (hcall : sendCall elem (parseChannel (E := E) elem).1 (decodeEmbed env elem).1
      = some call) (k : Nat) (tail : List (Action E))
    (htail : sends tail = [] ∧ saves tail = [] ∧ sleeps tail = []) :
    sends ((decodeEmbed env elem).2 ++ (parseChannel elem).2 ++
        (retryTrace call k ++ call :: tail) ++ (processCleanup env elem cur).1)
      = List.replicate (k + 1) call ∧
    callbacks ((decodeEmbed env elem).2 ++ (parseChannel elem).2 ++
        (retryTrace call k ++ call :: tail) ++ (processCleanup env elem cur).1)
      = callbacks tail ∧
    saves ((decodeEmbed env elem).2 ++ (parseChannel elem).2 ++
        (retryTrace call k ++ call :: tail) ++ (processCleanup env elem cur).1)
      = [.Save { elem with Processed := true }] ∧
    sleeps ((decodeEmbed env elem).2 ++ (parseChannel elem).2 ++
        (retryTrace call k ++ call :: tail) ++ (processCleanup env elem cur).1)
      = List.replicate k .Sleep := by
  obtain ⟨d1, d2, d3, d4⟩ := decode_projections env elem
  obtain ⟨p1, p2, p3, p4⟩ := parse_projections (E := E) elem
  obtain ⟨c1, c2, c3, c4⟩ := cleanup_projections env elem cur
  obtain ⟨q1, q2, q3, q4⟩ := call_projections elem _ _ call hcall tail
  obtain ⟨t1, t3, t4⟩ := htail
  refine ⟨?_, ?_, ?_, ?_⟩
  · simp only [sends_append, d1, p1, c1, sends_retryTrace elem _ _ call hcall, q1, t1,
      List.nil_append, List.append_nil]
    exact (List.replicate_add k 1 call).symm
  · simp only [callbacks_append, d2, p2, c2, callbacks_retryTrace elem _ _ call hcall, q2,
      List.nil_append, List.append_nil]
  · simp only [saves_append, d3, p3, c3, saves_retryTrace elem _ _ call hcall, q3, t3,
      List.nil_append, List.append_nil]
  · simp only [sleeps_append, d4, p4, c4, sleeps_retryTrace elem _ _ call hcall, q4, t4,
      List.nil_append, List.append_nil]

theorem handler_tail_projections {E : Type} (env : Env E) (elem : QueuedElement)
    (err : SendError) :
    sends (if elem.Source ∈ env.sources then [Action.HandleMQueueError (E := E) elem err]
      else []) = [] ∧
    saves (if elem.Source ∈ env.sources then [Action.HandleMQueueError (E := E) elem err]
      else []) = [] ∧
    sleeps (if elem.Source ∈ env.sources then [Action.HandleMQueueError (E := E) elem err]
      else []) = [] := by
  by_cases h : elem.Source ∈ env.sources <;> simp [sends, saves, sleeps, h]

theorem handler_tail_callbacks {E : Type} (env : Env E) (elem : QueuedElement)
    (err : SendError) :
    callbacks (if elem.Source ∈ env.sources
      then [Action.HandleMQueueError (E := E) elem err] else []) =
    (if elem.Source ∈ env.sources then [Action.HandleMQueueError (E := E) elem err]
      else []) := by
  by_cases h : elem.Source ∈ env.sources <;> simp [callbacks, h]

/-- Projections of the trace of a run that found nothing to send. -/
theorem no_content_projections {E : Type} (env : Env E) (elem : QueuedElement)
    (cur : List Int) :
    sends ((decodeEmbed env elem).2 ++ (parseChannel elem).2 ++
        [.Log "MQueue: Both MessageEmbed and MessageStr empty"] ++
        (processCleanup env elem cur).1) = [] ∧
    callbacks ((decodeEmbed env elem).2 ++ (parseChannel elem).2 ++
        [.Log "MQueue: Both MessageEmbed and MessageStr empty"] ++
        (processCleanup env elem cur).1) = [] ∧
    saves ((decodeEmbed env elem).2 ++ (parseChannel elem).2 ++
        [.Log "MQueue: Both MessageEmbed and MessageStr empty"] ++
        (processCleanup env elem cur).1) = [.Save { elem with Processed := true }] ∧
    sleeps ((decodeEmbed env elem).2 ++ (parseChannel elem).2 ++
        [.Log "MQueue: Both MessageEmbed and MessageStr empty"] ++
        (processCleanup env elem cur).1) = [] := by
  obtain ⟨d1, d2, d3, d4⟩ := decode_projections env elem
  obtain ⟨p1, p2, p3, p4⟩ := parse_projections (E := E) elem
  obtain ⟨c1, c2, c3, c4⟩ := cleanup_projections env elem cur
  refine ⟨?_, ?_, ?_, ?_⟩
  · simp only [sends_append, d1, p1, c1, List.nil_append, List.append_nil]; rfl
  · simp only [callbacks_append, d2, p2, c2, List.nil_append, List.append_nil]; rfl
  · simp only [saves_append, d3, p3, c3, List.nil_append, List.append_nil]; rfl
  · simp only [sleeps_append, d4, p4, c4, List.nil_append, List.append_nil]; rfl

/-- With no fuel the run has made no call besides the log entries before the loop. -/
theorem process_zero {E : Type} (env : Env E) (cur : List Int)
    (elem : QueuedElement) :
    process env 0 cur elem =
      { trace := (decodeEmbed env elem).2 ++ (parseChannel elem).2,
        returned := false, elem := elem, currentlyProcessing := cur } := by
  simp [process, processLoop]

/-- Summary of a run: what was sent, called back and saved, by the way it stands. -/
theorem process_summary {E : Type} (env : Env E) (fuel : Nat) (cur : List Int)
    (elem : QueuedElement) :
    ((process env fuel cur elem).returned = false ∧
      Transient env 0 (sends (process env fuel cur elem).trace).length ∧
      callbacks (process env fuel cur elem).trace = [] ∧
      saves (process env fuel cur elem).trace = [] ∧
      (process env fuel cur elem).elem = elem ∧
      (process env fuel cur elem).currentlyProcessing = cur) ∨
    ((process env fuel cur elem).returned = true ∧
      (process env fuel cur elem).elem = { elem with Processed := true } ∧
      (process env fuel cur elem).currentlyProcessing = removeProcessing cur elem.ID ∧
      saves (process env fuel cur elem).trace = [.Save { elem with Processed := true }] ∧
      ((sends (process env fuel cur elem).trace = [] ∧
          callbacks (process env fuel cur elem).trace = [] ∧
          sendCall elem (parseChannel (E := E) elem).1 (decodeEmbed env elem).1 = none) ∨
       (∃ k, k < fuel ∧ (sends (process env fuel cur elem).trace).length = k + 1 ∧
          Transient env 0 k ∧ env.send k = none ∧
          callbacks (process env fuel cur elem).trace = []) ∨
       (∃ k err, k < fuel ∧ (sends (process env fuel cur elem).trace).length = k + 1 ∧
          Transient env 0 k ∧ env.send k = some err ∧ isClientError err = true ∧
          callbacks (process env fuel cur elem).trace =
            if elem.Source ∈ env.sources then [.HandleMQueueError elem err] else []))) := by
  cases hc : sendCall elem (parseChannel (E := E) elem).1 (decodeEmbed env elem).1 with
  | none =>
    cases fuel with
    | zero =>
      left
      obtain ⟨d1, d2, d3, _⟩ := decode_projections env elem
      obtain ⟨p1, p2, p3, _⟩ := parse_projections (E := E) elem
      rw [process_zero]
      refine ⟨rfl, ?_, ?_, ?_, rfl, rfl⟩
      · intro i hi
        simp [sends_append, d1, p1] at hi
      · simp [callbacks_append, d2, p2]
      · simp [saves_append, d3, p3]
    | succ fuel =>
      right
      obtain ⟨n1, n2, n3, _⟩ := no_content_projections env elem cur
      rw [process_no_content env fuel cur elem hc]
      exact ⟨rfl, rfl, rfl, n3, Or.inl ⟨n1, n2, rfl⟩⟩
  | some call =>
    rcases process_cases env fuel cur elem call hc with
      ⟨ht, hp⟩ | ⟨k, hk, ht, hn, hp⟩ | ⟨k, err, hk, ht, hn, he, hp⟩
    · left
      obtain ⟨r1, r2, r3, _⟩ := retrying_projections env elem call hc fuel
      rw [hp]
      refine ⟨rfl, ?_, r2, r3, rfl, rfl⟩
      show Transient env 0 (sends _).length
      rw [r1, List.length_replicate]
      exact ht
    · right
      obtain ⟨r1, r2, r3, _⟩ := returned_projections env elem cur call hc k []
        ⟨rfl, rfl, rfl⟩
      rw [hp]
      refine ⟨rfl, rfl, rfl, r3, Or.inr (Or.inl ⟨k, hk, ?_, ht, hn, r2⟩)⟩
      show (sends _).length = k + 1
      rw [r1, List.length_replicate]
    · right
      obtain ⟨r1, r2, r3, _⟩ := returned_projections env elem cur call hc k _
        (handler_tail_projections env elem err)
      rw [hp]
      refine ⟨rfl, rfl, rfl, r3, Or.inr (Or.inr ⟨k, err, hk, ?_, ht, hn, he, ?_⟩)⟩
      · show (sends _).length = k + 1
        rw [r1, List.length_replicate]
      · show callbacks _ = _
        rw [r2, handler_tail_callbacks]


/-- C2. In one run of `process`, over any sequence of delivery outcomes and followed
for any number of loop iterations, `HandleMQueueError` is called at most once; it is
called exactly when the run has returned, the last delivery call returned an error
that passes the test of lines 238-239, and the source of the element has a registered
handler, and then with the element and that error. It is not called while the run is
still retrying, after transient failures alone, when the last call succeeded, or when
no handler is registered. -/
theorem handler_called_once_iff_permanent {E : Type} (env : Env E) (fuel : Nat)
    (cur : List Int) (elem : QueuedElement) :
    (callbacks (process env fuel cur elem).trace).length ≤ 1 ∧
    (callbacks (process env fuel cur elem).trace ≠ [] ↔
      (process env fuel cur elem).returned = true ∧ elem.Source ∈ env.sources ∧
      ∃ m err, (sends (process env fuel cur elem).trace).length = m + 1 ∧
        env.send m = some err ∧ isClientError err = true) ∧
    (∀ cb ∈ callbacks (process env fuel cur elem).trace,
      ∃ m err, (sends (process env fuel cur elem).trace).length = m + 1 ∧
        env.send m = some err ∧ cb = .HandleMQueueError elem err) ∧
    ((process env fuel cur elem).returned = false →
      callbacks (process env fuel cur elem).trace = []) ∧
    (Transient env 0 fuel → callbacks (process env fuel cur elem).trace = []) ∧
    (∀ m, (sends (process env fuel cur elem).trace).length = m + 1 → env.send m = none →
      callbacks (process env fuel cur elem).trace = []) ∧
    (elem.Source ∉ env.sources → callbacks (process env fuel cur elem).trace = []) := by
  rcases process_summary env fuel cur elem with
    ⟨hret, _, hcb, _, _, _⟩ |
    ⟨hret, _, _, _, ⟨hs, hcb, _⟩ | ⟨k, hk, hs, ht, hn, hcb⟩ | ⟨k, err, hk, hs, ht, hn, he, hcb⟩⟩
  · rw [hcb, hret]
    simp
  · rw [hcb, hret, hs]
    simp
  · rw [hcb, hret, hs]
    refine ⟨by simp, ?_, by simp, by simp, by simp, by simp, by simp⟩
    constructor
    · intro h; exact absurd rfl h
    · rintro ⟨_, _, m, e, hm, hsend, _⟩
      have : m = k := by omega
      subst this
      rw [hn] at hsend
      cases hsend
  · rw [hcb, hret, hs]
    by_cases hsrc : elem.Source ∈ env.sources
    · simp only [hsrc, if_true]
      refine ⟨by simp, ?_, ?_, by simp, ?_, ?_, ?_⟩
      · constructor
        · intro _
          exact ⟨trivial, trivial, k, err, rfl, hn, he⟩
        · intro _; simp
      · intro cb hcbm
        simp only [List.mem_singleton] at hcbm
        exact ⟨k, err, rfl, hn, hcbm⟩
      · intro htr
        obtain ⟨e2, h2, h3⟩ := htr k hk
        simp only [Nat.zero_add] at h2
        rw [hn] at h2
        cases h2
        rw [he] at h3
        cases h3
      · intro m hm hnone
        have : m = k := by omega
        subst this
        rw [hn] at hnone
        cases hnone
      · intro h; exact absurd trivial h
    · simp only [hsrc, if_false]
      refine ⟨by simp, ?_, by simp, by simp, by simp, by simp, by simp⟩
      constructor
      · intro h; exact absurd rfl h
      · rintro ⟨_, h, _⟩; exact absurd h (by simp)


/-! ## Helper lemmas: closed forms of a run -/

theorem isClientError_iff (err : SendError) : isClientError err = true ↔ ClientRejected err := by
  cases err with
  | other => simp [isClientError, ClientRejected]
  | rest e =>
    obtain ⟨r, m⟩ := e
    cases r <;> cases m <;> simp [isClientError, ClientRejected] <;> omega

/-- Iteration `k` cannot both be a transient failure and end the loop. -/
theorem Transient.lt_stop {E : Type} {env : Env E} {j k : Nat}
    (h : Transient env 0 j)
    (hk : env.send k = none ∨ ∃ e, env.send k = some e ∧ isClientError e = true) :
    j ≤ k := by
  by_contra hlt
  obtain ⟨e, h1, h2⟩ := h k (by omega)
  simp only [Nat.zero_add] at h1
  rcases hk with hn | ⟨e2, hs, hc⟩
  · rw [hn] at h1; cases h1
  · rw [hs] at h1
    cases h1
    rw [hc] at h2
    cases h2

theorem process_retrying {E : Type} (env : Env E) (fuel : Nat) (cur : List Int)
    (elem : QueuedElement) (call : Action E)
    (hcall : sendCall elem (parseChannel (E := E) elem).1 (decodeEmbed env elem).1
      = some call)
    (ht : Transient env 0 fuel) :
    process env fuel cur elem =
      { trace := (decodeEmbed env elem).2 ++ (parseChannel elem).2 ++ retryTrace call fuel,
        returned := false, elem := elem, currentlyProcessing := cur } := by
  rcases process_cases env fuel cur elem call hcall with
    ⟨_, hp⟩ | ⟨k, hk, _, hn, _⟩ | ⟨k, err, hk, _, hn, he, _⟩
  · exact hp
  · have := ht.lt_stop (Or.inl hn)
    omega
  · have := ht.lt_stop (Or.inr ⟨err, hn, he⟩)
    omega

theorem process_success {E : Type} (env : Env E) (fuel k : Nat) (cur : List Int)
    (elem : QueuedElement) (call : Action E)
    (hcall : sendCall elem (parseChannel (E := E) elem).1 (decodeEmbed env elem).1
      = some call)
    (ht : Transient env 0 k) (hn : env.send k = none) (hk : k < fuel) :
    process env fuel cur elem =
      { trace := (decodeEmbed env elem).2 ++ (parseChannel elem).2 ++
          (retryTrace call k ++ [call]) ++ (processCleanup env elem cur).1,
        returned := true, elem := { elem with Processed := true },
        currentlyProcessing := removeProcessing cur elem.ID } := by
  rcases process_cases env fuel cur elem call hcall with
    ⟨ht2, _⟩ | ⟨j, _, ht2, hn2, hp⟩ | ⟨j, err, _, ht2, hn2, he, _⟩
  · have := ht2.lt_stop (Or.inl hn)
    omega
  · have h1 := ht2.lt_stop (Or.inl hn)
    have h2 := ht.lt_stop (Or.inl hn2)
    have : j = k := by omega
    subst this
    exact hp
  · have h1 := ht2.lt_stop (Or.inl hn)
    have h2 := ht.lt_stop (Or.inr ⟨err, hn2, he⟩)
    have : j = k := by omega
    subst this
    rw [hn] at hn2
    cases hn2

theorem process_rejected {E : Type} (env : Env E) (fuel k : Nat) (cur : List Int)
    (elem : QueuedElement) (call : Action E) (err : SendError)
    (hcall : sendCall elem (parseChannel (E := E) elem).1 (decodeEmbed env elem).1
      = some call)
    (ht : Transient env 0 k) (hn : env.send k = some err) (he : isClientError err = true)
    (hk : k < fuel) :
    process env fuel cur elem =
      { trace := (decodeEmbed env elem).2 ++ (parseChannel elem).2 ++
          (retryTrace call k ++ call ::
            (if elem.Source ∈ env.sources then [.HandleMQueueError elem err] else [])) ++
          (processCleanup env elem cur).1,
        returned := true, elem := { elem with Processed := true },
        currentlyProcessing := removeProcessing cur elem.ID } := by
  rcases process_cases env fuel cur elem call hcall with
    ⟨ht2, _⟩ | ⟨j, _, ht2, hn2, _⟩ | ⟨j, err2, _, ht2, hn2, he2, hp⟩
  · have := ht2.lt_stop (Or.inr ⟨err, hn, he⟩)
    omega
  · have h1 := ht2.lt_stop (Or.inr ⟨err, hn, he⟩)
    have h2 := ht.lt_stop (Or.inl hn2)
    have : j = k := by omega
    subst this
    rw [hn] at hn2
    cases hn2
  · have h1 := ht2.lt_stop (Or.inr ⟨err, hn, he⟩)
    have h2 := ht.lt_stop (Or.inr ⟨err2, hn2, he2⟩)
    have : j = k := by omega
    subst this
    rw [hn] at hn2
    cases hn2
    exact hp

/-- A run that has not returned after `n` iterations has seen `n` transient failures. -/
theorem transient_of_not_returned {E : Type} (env : Env E) (n : Nat) (cur : List Int)
    (elem : QueuedElement) (h : (process env n cur elem).returned = false) :
    Transient env 0 n := by
  rcases process_summary env n cur elem with ⟨_, ht, _, _, _, _⟩ | ⟨hret, _⟩
  · cases hc : sendCall elem (parseChannel (E := E) elem).1 (decodeEmbed env elem).1 with
    | none =>
      cases n with
      | zero => exact fun i hi => absurd hi (Nat.not_lt_zero i)
      | succ m =>
        rw [process_no_content env m cur elem hc] at h
        cases h
    | some call =>
      rcases process_cases env n cur elem call hc with
        ⟨ht2, _⟩ | ⟨k, _, _, _, hp⟩ | ⟨k, err, _, _, _, _, hp⟩
      · exact ht2
      · rw [hp] at h; cases h
      · rw [hp] at h; cases h
  · rw [hret] at h; cases h

/-- With content to send, the delivery calls of any run are copies of one call, and
there are at least as many as transient failures were seen, plus one when fuel is
left. -/
theorem sends_at_least {E : Type} (env : Env E) (fuel n : Nat) (cur : List Int)
    (elem : QueuedElement) (call : Action E)
    (hcall : sendCall elem (parseChannel (E := E) elem).1 (decodeEmbed env elem).1
      = some call)
    (ht : Transient env 0 n) (hf : n < fuel) :
    ∃ j, sends (process env fuel cur elem).trace = List.replicate (n + 1 + j) call := by
  rcases process_cases env fuel cur elem call hcall with
    ⟨_, hp⟩ | ⟨k, _, _, hn, hp⟩ | ⟨k, err, _, _, hn, he, hp⟩
  · refine ⟨fuel - (n + 1), ?_⟩
    rw [hp]
    have e : n + 1 + (fuel - (n + 1)) = fuel := by omega
    rw [e]
    exact (retrying_projections env elem call hcall fuel).1
  · have := ht.lt_stop (Or.inl hn)
    refine ⟨k - n, ?_⟩
    rw [hp]
    have e : n + 1 + (k - n) = k + 1 := by omega
    rw [e]
    exact (returned_projections env elem cur call hcall k [] ⟨rfl, rfl, rfl⟩).1
  · have := ht.lt_stop (Or.inr ⟨err, hn, he⟩)
    refine ⟨k - n, ?_⟩
    rw [hp]
    have e : n + 1 + (k - n) = k + 1 := by omega
    rw [e]
    exact (returned_projections env elem cur call hcall k _
      (handler_tail_projections env elem err)).1


/-- C3. In `process`, when the run reaches a delivery attempt and that attempt fails
with `err`: if the error is a client-side rejection (REST error with status in
400..499, or with a non-zero API code) the run returns with no further attempt and
takes the callback step (the handler is called when one is registered); for every
other error (network failure, 5xx, timeout) the run does not return on it, calls no
handler, and makes another delivery attempt with the same call. The source test of
lines 238-239 is exactly the client-rejection condition. -/
theorem permanent_iff_client_rejected {E : Type} (env : Env E) (n : Nat)
    (cur : List Int) (elem : QueuedElement) (call : Action E) (err : SendError)
    (hcall : sendCall elem (parseChannel (E := E) elem).1 (decodeEmbed env elem).1
      = some call)
    (hrun : (process env n cur elem).returned = false)
    (herr : env.send n = some err) :
    (isClientError err = true ↔ ClientRejected err) ∧
    (ClientRejected err → ∀ fuel, n < fuel →
      (process env fuel cur elem).returned = true ∧
      sends (process env fuel cur elem).trace = List.replicate (n + 1) call ∧
      callbacks (process env fuel cur elem).trace =
        if elem.Source ∈ env.sources then [.HandleMQueueError elem err] else []) ∧
    (¬ ClientRejected err →
      (process env (n + 1) cur elem).returned = false ∧
      callbacks (process env (n + 1) cur elem).trace = [] ∧
      ∀ fuel, n + 1 < fuel →
        ∃ j, sends (process env fuel cur elem).trace = List.replicate (n + 2 + j) call) := by
  have ht : Transient env 0 n := transient_of_not_returned env n cur elem hrun
  refine ⟨isClientError_iff err, ?_, ?_⟩
  · intro hc fuel hf
    have he : isClientError err = true := (isClientError_iff err).mpr hc
    rw [process_rejected env fuel n cur elem call err hcall ht herr he hf]
    obtain ⟨r1, r2, _, _⟩ := returned_projections env elem cur call hcall n _
      (handler_tail_projections env elem err)
    exact ⟨rfl, r1, r2.trans (handler_tail_callbacks env elem err)⟩
  · intro hc
    have he : isClientError err = false := by
      cases h : isClientError err with
      | false => rfl
      | true => exact absurd ((isClientError_iff err).mp h) hc
    have ht1 : Transient env 0 (n + 1) := by
      intro i hi
      by_cases hin : i = n
      · subst hin
        exact ⟨err, by simpa using herr, he⟩
      · exact ht i (by omega)
    rw [process_retrying env (n + 1) cur elem call hcall ht1]
    obtain ⟨_, r2, _, _⟩ := retrying_projections env elem call hcall (n + 1)
    refine ⟨rfl, r2, ?_⟩
    intro fuel hf
    obtain ⟨j, hj⟩ := sends_at_least env fuel (n + 1) cur elem call hcall ht1 hf
    exact ⟨j, by rw [hj]⟩

/-- Witness for C3: a 503 on the first attempt, then a 404 on the second one, which
ends the run with two delivery calls and one callback. -/
theorem permanent_iff_client_rejected_witness :
    sendCall demoElem (parseChannel (E := String) demoElem).1
      (decodeEmbed (demoEnv [some (.rest ⟨some 503, none⟩), some (.rest ⟨some 404, none⟩)]
        false) demoElem).1 = some (.ChannelMessageSend 123 "hi") ∧
    (process (demoEnv [some (.rest ⟨some 503, none⟩), some (.rest ⟨some 404, none⟩)] false)
      1 [7] demoElem).returned = false ∧
    ClientRejected (.rest ⟨some 404, none⟩) ∧
    ((process (demoEnv [some (.rest ⟨some 503, none⟩), some (.rest ⟨some 404, none⟩)] false)
        5 [7] demoElem).returned = true ∧
      sends (process (demoEnv [some (.rest ⟨some 503, none⟩), some (.rest ⟨some 404, none⟩)]
        false) 5 [7] demoElem).trace = List.replicate 2 (.ChannelMessageSend 123 "hi") ∧
      callbacks (process (demoEnv [some (.rest ⟨some 503, none⟩),
        some (.rest ⟨some 404, none⟩)] false) 5 [7] demoElem).trace =
        if demoElem.Source ∈ (demoEnv [some (.rest ⟨some 503, none⟩),
            some (.rest ⟨some 404, none⟩)] false).sources
        then [.HandleMQueueError demoElem (.rest ⟨some 404, none⟩)] else []) :=
  ⟨rfl, rfl, ⟨⟨some 404, none⟩, rfl, Or.inl ⟨404, rfl, by decide, by decide⟩⟩,
   (permanent_iff_client_rejected
      (demoEnv [some (.rest ⟨some 503, none⟩), some (.rest ⟨some 404, none⟩)] false)
      1 [7] demoElem (.ChannelMessageSend 123 "hi") (.rest ⟨some 404, none⟩)
      rfl rfl rfl).2.1
     ⟨⟨some 404, none⟩, rfl, Or.inl ⟨404, rfl, by decide, by decide⟩⟩ 5 (by decide)⟩

/-- C4. Transient retry is unbounded and does not escalate: for every `N` and every
record with content to send, if the first `N` delivery attempts fail with errors that
are not client rejections, then after them the run has not returned, has made `N`
attempts with the same call, has slept `N` times, has called no handler and not the
store, and has not touched the element or the tracker; an attempt `N + 1` with the
same call follows; and when that attempt succeeds the run returns with exactly `N + 1`
attempts, `N` sleeps, `Processed = true`, one store write and no callback. -/
theorem transient_retry_unbounded {E : Type} (env : Env E) (N : Nat)
    (cur : List Int) (elem : QueuedElement) (call : Action E)
    (hcall : sendCall elem (parseChannel (E := E) elem).1 (decodeEmbed env elem).1
      = some call)
    (ht : Transient env 0 N) :
    ((process env N cur elem).returned = false ∧
      sends (process env N cur elem).trace = List.replicate N call ∧
      sleeps (process env N cur elem).trace = List.replicate N .Sleep ∧
      callbacks (process env N cur elem).trace = [] ∧
      saves (process env N cur elem).trace = [] ∧
      (process env N cur elem).elem = elem ∧
      (process env N cur elem).currentlyProcessing = cur) ∧
    (∀ fuel, N < fuel →
      ∃ j, sends (process env fuel cur elem).trace = List.replicate (N + 1 + j) call) ∧
    (env.send N = none → ∀ fuel, N < fuel →
      (process env fuel cur elem).returned = true ∧
      sends (process env fuel cur elem).trace = List.replicate (N + 1) call ∧
      sleeps (process env fuel cur elem).trace = List.replicate N .Sleep ∧
      callbacks (process env fuel cur elem).trace = [] ∧
      saves (process env fuel cur elem).trace = [.Save { elem with Processed := true }] ∧
      (process env fuel cur elem).elem.Processed = true) := by
  refine ⟨?_, ?_, ?_⟩
  · rw [process_retrying env N cur elem call hcall ht]
    obtain ⟨r1, r2, r3, r4⟩ := retrying_projections env elem call hcall N
    exact ⟨rfl, r1, r4, r2, r3, rfl, rfl⟩
  · intro fuel hf
    exact sends_at_least env fuel N cur elem call hcall ht hf
  · intro hn fuel hf
    rw [process_success env fuel N cur elem call hcall ht hn hf]
    obtain ⟨r1, r2, r3, r4⟩ := returned_projections env elem cur call hcall N []
      ⟨rfl, rfl, rfl⟩
    exact ⟨rfl, r1, r4, r2, r3, rfl⟩

/-- Witness for C4: the scenario of the spec, one 503 and then a success. -/
theorem transient_retry_unbounded_witness :
    Transient (demoEnv [some (.rest ⟨some 503, none⟩)] false) 0 1 ∧
    (process (demoEnv [some (.rest ⟨some 503, none⟩)] false) 9 [7] demoElem).returned = true ∧
    sends (process (demoEnv [some (.rest ⟨some 503, none⟩)] false) 9 [7] demoElem).trace =
      [.ChannelMessageSend 123 "hi", .ChannelMessageSend 123 "hi"] ∧
    sleeps (process (demoEnv [some (.rest ⟨some 503, none⟩)] false) 9 [7] demoElem).trace =
      [.Sleep] ∧
    callbacks (process (demoEnv [some (.rest ⟨some 503, none⟩)] false) 9 [7] demoElem).trace
      = [] ∧
    (process (demoEnv [some (.rest ⟨some 503, none⟩)] false) 9 [7] demoElem).elem.Processed
      = true :=
  have ht : Transient (demoEnv [some (.rest ⟨some 503, none⟩)] false) 0 1 := by
    intro i hi
    have : i = 0 := by omega
    subst this
    exact ⟨.rest ⟨some 503, none⟩, rfl, rfl⟩
  have h := (transient_retry_unbounded (demoEnv [some (.rest ⟨some 503, none⟩)] false) 1 [7]
    demoElem (.ChannelMessageSend 123 "hi") rfl ht).2.2 rfl 9 (by decide)
  ⟨ht, h.1, h.2.1, h.2.2.1, h.2.2.2.1, h.2.2.2.2.2⟩


/-- Shape of a run that has returned: the calls of the loop, in which the store is not
written, followed by the calls of the deferred function; more fuel changes nothing. -/
theorem process_returned_form {E : Type} (env : Env E) (fuel : Nat) (cur : List Int)
    (elem : QueuedElement) (hret : (process env fuel cur elem).returned = true) :
    (∃ pre, process env fuel cur elem =
        { trace := pre ++ (processCleanup env elem cur).1, returned := true,
          elem := { elem with Processed := true },
          currentlyProcessing := removeProcessing cur elem.ID } ∧
      saves pre = []) ∧
    ∀ fuel2, fuel ≤ fuel2 → process env fuel2 cur elem = process env fuel cur elem := by
  obtain ⟨d1, d2, d3, d4⟩ := decode_projections env elem
  obtain ⟨p1, p2, p3, p4⟩ := parse_projections (E := E) elem
  cases hc : sendCall elem (parseChannel (E := E) elem).1 (decodeEmbed env elem).1 with
  | none =>
    cases fuel with
    | zero => rw [process_zero] at hret; cases hret
    | succ m =>
      refine ⟨⟨_, process_no_content env m cur elem hc, ?_⟩, ?_⟩
      · simp only [saves_append, d3, p3, List.nil_append]; rfl
      · intro fuel2 h2
        obtain ⟨m2, rfl⟩ : ∃ m2, fuel2 = m2 + 1 := ⟨fuel2 - 1, by omega⟩
        rw [process_no_content env m cur elem hc, process_no_content env m2 cur elem hc]
  | some call =>
    rcases process_cases env fuel cur elem call hc with
      ⟨_, hp⟩ | ⟨k, hk, ht, hn, hp⟩ | ⟨k, err, hk, ht, hn, he, hp⟩
    · rw [hp] at hret; cases hret
    · refine ⟨⟨_, hp, ?_⟩, ?_⟩
      · obtain ⟨q1, q2, q3, q4⟩ := call_projections elem _ _ call hc []
        simp only [saves_append, d3, p3, saves_retryTrace elem _ _ call hc, q3,
          List.nil_append]
        rfl
      · intro fuel2 h2
        rw [hp, process_success env fuel2 k cur elem call hc ht hn (by omega)]
    · refine ⟨⟨_, hp, ?_⟩, ?_⟩
      · obtain ⟨q1, q2, q3, q4⟩ := call_projections elem _ _ call hc
          (if elem.Source ∈ env.sources then [.HandleMQueueError elem err] else [])
        simp only [saves_append, d3, p3, saves_retryTrace elem _ _ call hc, q3,
          (handler_tail_projections env elem err).2.1, List.nil_append]
      · intro fuel2 h2
        rw [hp, process_rejected env fuel2 k cur elem call err hc ht hn he (by omega)]

/-- A run returns as soon as one delivery outcome is a success or a client rejection,
and at once when there is nothing to send. -/
theorem process_returns {E : Type} (env : Env E) (cur : List Int)
    (elem : QueuedElement) :
    (sendCall elem (parseChannel (E := E) elem).1 (decodeEmbed env elem).1 = none →
      ∀ fuel, (process env (fuel + 1) cur elem).returned = true) ∧
    (∀ k, (env.send k = none ∨ ∃ e, env.send k = some e ∧ isClientError e = true) →
      ∀ fuel, k < fuel → (process env fuel cur elem).returned = true) := by
  constructor
  · intro hc fuel
    rw [process_no_content env fuel cur elem hc]
  · intro k hk fuel hf
    rcases process_summary env fuel cur elem with ⟨hret, ht, _⟩ | ⟨hret, _⟩
    · exfalso
      cases hc : sendCall elem (parseChannel (E := E) elem).1
          (decodeEmbed env elem).1 with
      | none =>
        obtain ⟨m, rfl⟩ : ∃ m, fuel = m + 1 := ⟨fuel - 1, by omega⟩
        rw [process_no_content env m cur elem hc] at hret
        cases hret
      | some call =>
        rcases process_cases env fuel cur elem call hc with
          ⟨ht2, _⟩ | ⟨j, _, _, _, hp⟩ | ⟨j, err, _, _, _, _, hp⟩
        · have := ht2.lt_stop hk
          omega
        · rw [hp] at hret; cases hret
        · rw [hp] at hret; cases hret
    · exact hret

/-- C5. Terminal cleanup runs once whatever the terminal state: whenever a run of
`process` has returned (after a success, a client rejection or with nothing to send),
the element has `Processed = true`, `store.Save` was called exactly once, with that
element, after every delivery call and as the first call of the deferred function,
the tracker has lost the first occurrence of the id, so the id is no longer tracked
when it was tracked at most once (the invariant of C1), and nothing changes with more
fuel. This does not depend on `env.saveErr`, the result of the store write. A run that
has not returned has neither changed the element nor written to the store. -/
theorem cleanup_once_on_return {E : Type} (env : Env E) (fuel : Nat)
    (cur : List Int) (elem : QueuedElement)
    (hret : (process env fuel cur elem).returned = true) :
    (process env fuel cur elem).elem = { elem with Processed := true } ∧
    (process env fuel cur elem).elem.Processed = true ∧
    saves (process env fuel cur elem).trace = [.Save { elem with Processed := true }] ∧
    (∃ pre, (process env fuel cur elem).trace =
        pre ++ .Save { elem with Processed := true } ::
          (if env.saveErr then [.Log "MQueue: Failed marking elem as processed"] else []) ∧
      saves pre = []) ∧
    (process env fuel cur elem).currentlyProcessing = removeProcessing cur elem.ID ∧
    (cur.Nodup → elem.ID ∉ (process env fuel cur elem).currentlyProcessing) ∧
    (∀ fuel2, fuel ≤ fuel2 → process env fuel2 cur elem = process env fuel cur elem) ∧
    (∀ fuel1, (process env fuel1 cur elem).returned = false →
      (process env fuel1 cur elem).elem = elem ∧
      saves (process env fuel1 cur elem).trace = [] ∧
      (process env fuel1 cur elem).currentlyProcessing = cur) := by
  obtain ⟨⟨pre, hp, hpre⟩, hstable⟩ := process_returned_form env fuel cur elem hret
  refine ⟨?_, ?_, ?_, ⟨pre, ?_, hpre⟩, ?_, ?_, hstable, ?_⟩
  · rw [hp]
  · rw [hp]
  · rw [hp]
    show saves (pre ++ (processCleanup env elem cur).1) = _
    rw [saves_append, hpre, (cleanup_projections env elem cur).2.2.1]
    rfl
  · rw [hp]
    rfl
  · rw [hp]
  · intro hnd
    rw [hp]
    show elem.ID ∉ removeProcessing cur elem.ID
    rw [removeProcessing_eq_erase]
    intro hmem
    exact absurd rfl ((hnd.mem_erase_iff).mp hmem).1
  · intro fuel1 h1
    rcases process_summary env fuel1 cur elem with ⟨_, _, _, hs, he, hcur⟩ | ⟨hr, _⟩
    · exact ⟨he, hs, hcur⟩
    · rw [hr] at h1; cases h1

/-- Witness for C5: the scenario run with a failing store write, tracked as `[3, 7]`. -/
theorem cleanup_once_on_return_witness :
    (process (demoEnv [some (.rest ⟨some 503, none⟩)] true) 2 [3, 7] demoElem).returned
      = true ∧
    (process (demoEnv [some (.rest ⟨some 503, none⟩)] true) 2 [3, 7] demoElem).elem.Processed
      = true ∧
    saves (process (demoEnv [some (.rest ⟨some 503, none⟩)] true) 2 [3, 7] demoElem).trace
      = [.Save { demoElem with Processed := true }] ∧
    (process (demoEnv [some (.rest ⟨some 503, none⟩)] true) 2 [3, 7]
      demoElem).currentlyProcessing = [3] :=
  have h := cleanup_once_on_return (demoEnv [some (.rest ⟨some 503, none⟩)] true) 2 [3, 7]
    demoElem rfl
  ⟨rfl, h.2.1, h.2.2.1, h.2.2.2.2.1.trans (by decide)⟩


/-! ## Enqueueing, content selection, lifecycle -/

/-- C6, as stated, fails: the text path called with the empty text hands the store a
record with neither content field populated. -/
theorem text_enqueue_empty_populates_neither :
    ¬ ((populated (QueueMessageString "reminders" "42" "123" "").MessageStr = true ∧
          populated (QueueMessageString "reminders" "42" "123" "").MessageEmbed = false) ∨
       (populated (QueueMessageString "reminders" "42" "123" "").MessageStr = false ∧
          populated (QueueMessageString "reminders" "42" "123" "").MessageEmbed = true)) := by
  decide

/-- C6, amended. For every call of the text path with a non-empty text and every call
of the structured path with a payload that serializes, the record handed to the store
has exactly one of the two content fields populated, never both and never neither:
`MessageStr` alone on the text path, `MessageEmbed` alone on the structured path. On
both paths the record has `Processed = false` and carries source, source id and
channel unchanged. The text path called with the empty text hands over a record with
neither field populated. The hypothesis on `marshal` is the property of `json.Marshal`
that a successful encoding is never the empty text. -/
theorem enqueue_content_fields {E : Type} (marshal : Option E → Option String)
    (hjson : ∀ e encoded, marshal e = some encoded → encoded ≠ "")
    (source sourceID channel message : String) (embed : Option E) :
    ((message ≠ "" →
        populated (QueueMessageString source sourceID channel message).MessageStr = true ∧
        populated (QueueMessageString source sourceID channel message).MessageEmbed = false) ∧
      (message = "" →
        populated (QueueMessageString source sourceID channel message).MessageStr = false ∧
        populated (QueueMessageString source sourceID channel message).MessageEmbed = false) ∧
      ¬ (populated (QueueMessageString source sourceID channel message).MessageStr = true ∧
        populated (QueueMessageString source sourceID channel message).MessageEmbed = true) ∧
      (QueueMessageString source sourceID channel message).MessageStr = message ∧
      (QueueMessageString source sourceID channel message).MessageEmbed = "" ∧
      (QueueMessageString source sourceID channel message).Processed = false ∧
      (QueueMessageString source sourceID channel message).Source = source ∧
      (QueueMessageString source sourceID channel message).SourceID = sourceID ∧
      (QueueMessageString source sourceID channel message).Channel = channel) ∧
    (marshal embed = none →
      QueueMessageEmbed marshal source sourceID channel embed = none) ∧
    (∀ encoded, marshal embed = some encoded →
      ∃ q, QueueMessageEmbed marshal source sourceID channel embed = some q ∧
        populated q.MessageStr = false ∧ populated q.MessageEmbed = true ∧
        q.MessageStr = "" ∧ q.MessageEmbed = encoded ∧
        q.Processed = false ∧ q.Source = source ∧ q.SourceID = sourceID ∧
        q.Channel = channel) := by
  refine ⟨⟨?_, ?_, ?_, rfl, rfl, rfl, rfl, rfl, rfl⟩, ?_, ?_⟩
  · intro hm
    simp [QueueMessageString, populated, hm]
  · intro hm
    simp [QueueMessageString, populated, hm]
  · simp [QueueMessageString, populated]
  · intro h
    simp [QueueMessageEmbed, h]
  · intro encoded h
    have hne : encoded ≠ "" := hjson embed encoded h
    refine ⟨{ ID := 0, Source := source, SourceID := sourceID, Channel := channel,
              MessageStr := "", MessageEmbed := encoded, Processed := false },
      by simp only [QueueMessageEmbed, h], by simp [populated],
      by simp [populated, hne], rfl, rfl, rfl, rfl, rfl, rfl⟩

/-- Witness for C6 amended: a non-empty text, and a payload given to an encoder that
never returns the empty text. -/
theorem enqueue_content_fields_witness :
    (∀ e encoded, demoMarshal e = some encoded → encoded ≠ "") ∧
    (populated (QueueMessageString "reminders" "42" "123" "hi").MessageStr = true ∧
      populated (QueueMessageString "reminders" "42" "123" "hi").MessageEmbed = false) ∧
    ∃ q, QueueMessageEmbed demoMarshal "reminders" "42" "123" (some true) = some q ∧
      populated q.MessageStr = false ∧ populated q.MessageEmbed = true :=
  have hjson : ∀ e encoded, demoMarshal e = some encoded → encoded ≠ "" := by
    intro e encoded h
    rcases e with _ | b
    · cases h; decide
    · cases b <;> cases h <;> decide
  have h := enqueue_content_fields demoMarshal hjson "reminders" "42" "123" "hi" (some true)
  ⟨hjson, h.1.1 (by decide),
   (h.2.2 "true" rfl).elim fun q hq => ⟨q, hq.1, hq.2.1, hq.2.2.1⟩⟩

/-- C7: what the code does for a channel that does not parse. With channel `abc` the
parse fails with a syntax error, the failure is only logged, and the text is sent to
channel `0`; when that call is rejected, the handler of the source is called. -/
theorem bad_channel_still_sends :
    (ParseInt "abc").2 = some .ErrSyntax ∧
    (process (demoEnv [some (.rest ⟨some 404, none⟩)] false) 1 [7]
      { demoElem with Channel := "abc" }).trace =
      [.Log "Failed parsing Channel",
       .ChannelMessageSend 0 "hi",
       .HandleMQueueError { demoElem with Channel := "abc" } (.rest ⟨some 404, none⟩),
       .Save { demoElem with Channel := "abc", Processed := true }] := by
  constructor
  · decide
  · rfl

/-- C8. Content selection in `process`: when `MessageStr` is not empty every delivery
call of the run is the text send with the parsed channel and `MessageStr`, and there
is at least one; else, when the decoded embed is present, every delivery call is the
embed send with the parsed channel and that embed, and there is at least one; else the
run returns without any delivery call and without a callback, and marks the element
processed. When both content fields are empty there is no decoded embed, so the last
case applies. -/
theorem content_selection {E : Type} (env : Env E) (fuel : Nat) (cur : List Int)
    (elem : QueuedElement) :
    (elem.MessageStr ≠ "" →
      ∃ j, sends (process env (fuel + 1) cur elem).trace =
        List.replicate (j + 1) (.ChannelMessageSend (ParseInt elem.Channel).1 elem.MessageStr)) ∧
    (elem.MessageStr = "" → ∀ e, (decodeEmbed env elem).1 = some e →
      ∃ j, sends (process env (fuel + 1) cur elem).trace =
        List.replicate (j + 1) (.ChannelMessageSendEmbed (ParseInt elem.Channel).1 e)) ∧
    (elem.MessageStr = "" → (decodeEmbed env elem).1 = none →
      (process env (fuel + 1) cur elem).returned = true ∧
      sends (process env (fuel + 1) cur elem).trace = [] ∧
      callbacks (process env (fuel + 1) cur elem).trace = [] ∧
      (process env (fuel + 1) cur elem).elem.Processed = true) ∧
    (elem.MessageStr = "" → elem.MessageEmbed = "" → (decodeEmbed env elem).1 = none) := by
  have h0 : Transient env 0 0 := fun i hi => absurd hi (Nat.not_lt_zero i)
  refine ⟨?_, ?_, ?_, ?_⟩
  · intro hs
    have hc : sendCall elem (parseChannel (E := E) elem).1 (decodeEmbed env elem).1
        = some (.ChannelMessageSend (ParseInt elem.Channel).1 elem.MessageStr) := by
      simp [sendCall, hs, parseChannel]
    obtain ⟨j, hj⟩ := sends_at_least env (fuel + 1) 0 cur elem _ hc h0 (Nat.succ_pos _)
    exact ⟨j, by rw [hj]; congr 1; omega⟩
  · intro hs e he
    have hc : sendCall elem (parseChannel (E := E) elem).1 (decodeEmbed env elem).1
        = some (.ChannelMessageSendEmbed (ParseInt elem.Channel).1 e) := by
      simp [sendCall, hs, he, parseChannel]
    obtain ⟨j, hj⟩ := sends_at_least env (fuel + 1) 0 cur elem _ hc h0 (Nat.succ_pos _)
    exact ⟨j, by rw [hj]; congr 1; omega⟩
  · intro hs he
    have hc : sendCall elem (parseChannel (E := E) elem).1 (decodeEmbed env elem).1
        = none := by
      simp [sendCall, hs, he]
    obtain ⟨n1, n2, _, _⟩ := no_content_projections env elem cur
    rw [process_no_content env fuel cur elem hc]
    exact ⟨rfl, n1, n2, rfl⟩
  · intro _ he
    simp [decodeEmbed, he]

/-- Witness for C8: a text record, an embed record and a record with no content. -/
theorem content_selection_witness :
    sends (process (demoEnv [] false) 1 [7] demoElem).trace
      = [.ChannelMessageSend 123 "hi"] ∧
    sends (process (demoEnv [] false) 1 [7]
      { demoElem with MessageStr := "", MessageEmbed := "doc" }).trace
      = [.ChannelMessageSendEmbed 123 "doc"] ∧
    sends (process (demoEnv [] false) 1 [7] { demoElem with MessageStr := "" }).trace = [] :=
  ⟨((content_selection (demoEnv [] false) 0 [7] demoElem).1 (by decide)).elim
      fun _ _ => rfl,
   rfl,
   ((content_selection (demoEnv [] false) 0 [7] { demoElem with MessageStr := "" }).2.2.1
      rfl rfl).2.1⟩

/-- C9, as stated, fails: after a start and a completed stop the controller is
`Stopped`, and the next start still panics with `AlreadyStarted`. -/
theorem restart_after_stop_fails :
    startPolling Lifecycle.init = .ok ⟨true, .Running⟩ ∧
    stopCompleted ⟨true, .Running⟩ = ⟨true, .Stopped⟩ ∧
    (stopCompleted ⟨true, .Running⟩).phase = .Stopped ∧
    startPolling (stopCompleted ⟨true, .Running⟩) = .error .AlreadyStarted :=
  ⟨rfl, rfl, rfl, rfl⟩

/-- Every operation keeps a set `started` flag set, and keeps the flag set whenever
the poller goroutine is in its loop or in `shutdown`. -/
theorem Lifecycle.apply_started (s : Lifecycle) (op : LifecycleOp) :
    (s.started = true → (s.apply op).started = true) ∧
    ((s.phase ≠ .Stopped → s.started = true) →
      ((s.apply op).phase ≠ .Stopped → (s.apply op).started = true)) := by
  obtain ⟨st, ph⟩ := s
  cases st <;> cases ph <;> cases op <;>
    simp [Lifecycle.apply, startPolling, StopBot, shutdownReturn]

theorem Lifecycle.foldl_started (ops : List LifecycleOp) (s : Lifecycle) :
    (s.started = true → (ops.foldl Lifecycle.apply s).started = true) ∧
    ((s.phase ≠ .Stopped → s.started = true) →
      ((ops.foldl Lifecycle.apply s).phase ≠ .Stopped →
        (ops.foldl Lifecycle.apply s).started = true)) := by
  induction ops generalizing s with
  | nil => exact ⟨id, id⟩
  | cons op rest ih =>
    simp only [List.foldl_cons]
    exact ⟨fun h => (ih (s.apply op)).1 ((s.apply_started op).1 h),
      fun h => (ih (s.apply op)).2 ((s.apply_started op).2 h)⟩

/-- C9, amended. `startPolling` fails with `AlreadyStarted` exactly when the flag
`started` is set, and else succeeds and enters the loop. It succeeds from the initial
state. No operation clears the flag, so after one successful start every later start
fails, whatever starts, stops and completed drains come in between: in particular
`start, start` fails on the second call and so does `start, stop completed, start`.
In every reachable state where the controller is `Running` or `Draining`, start
fails. -/
theorem start_fails_iff_started (s : Lifecycle) (ops : List LifecycleOp) :
    (startPolling s = .error .AlreadyStarted ↔ s.started = true) ∧
    (startPolling s = .ok ⟨true, .Running⟩ ↔ s.started = false) ∧
    startPolling Lifecycle.init = .ok ⟨true, .Running⟩ ∧
    startPolling (ops.foldl Lifecycle.apply ⟨true, .Running⟩) = .error .AlreadyStarted ∧
    startPolling ⟨true, .Running⟩ = .error .AlreadyStarted ∧
    startPolling (stopCompleted ⟨true, .Running⟩) = .error .AlreadyStarted ∧
    ((ops.foldl Lifecycle.apply Lifecycle.init).phase = .Running ∨
        (ops.foldl Lifecycle.apply Lifecycle.init).phase = .Draining →
      startPolling (ops.foldl Lifecycle.apply Lifecycle.init) = .error .AlreadyStarted) := by
  have key : ∀ t : Lifecycle, t.started = true → startPolling t = .error .AlreadyStarted := by
    intro t ht
    simp [startPolling, ht]
  refine ⟨?_, ?_, rfl, ?_, rfl, rfl, ?_⟩
  · cases h : s.started <;> simp [startPolling, h]
  · cases h : s.started <;> simp [startPolling, h]
  · exact key _ ((Lifecycle.foldl_started ops ⟨true, .Running⟩).1 rfl)
  · intro hph
    apply key
    apply (Lifecycle.foldl_started ops Lifecycle.init).2
    · intro h; exact absurd rfl h
    · rcases hph with h | h <;> rw [h] <;> decide

/-! ## Helper lemmas: shutdown -/

theorem leadingFrom_stop (sizes : Nat → Nat) (left i : Nat) (h : sizes i = 0) :
    leadingFrom sizes (left + 1) i = 0 := by
  simp [leadingFrom, List.range'_succ, List.takeWhile_cons, h]

theorem leadingFrom_go (sizes : Nat → Nat) (left i : Nat) (h : sizes i ≠ 0) :
    leadingFrom sizes (left + 1) i = leadingFrom sizes left (i + 1) + 1 := by
  simp [leadingFrom, List.range'_succ, List.takeWhile_cons, h]

theorem leadingNonZero_eq (sizes : Nat → Nat) : leadingNonZero sizes = leadingFrom sizes 10 0 := by
  simp [leadingNonZero, leadingFrom, List.range_eq_range']

/-- What the loop of `shutdown` does with `left` iterations to go from index `i`. -/
theorem shutdownLoop_spec (sizes : Nat → Nat) (left i : Nat) :
    leadingFrom sizes left i ≤ left ∧
    (∀ j, j < leadingFrom sizes left i → sizes (i + j) ≠ 0) ∧
    (leadingFrom sizes left i < left → sizes (i + leadingFrom sizes left i) = 0) ∧
    (shutdownLoop sizes left i).count .Sleep = leadingFrom sizes left i ∧
    (shutdownLoop sizes left i).countP ShutdownAction.isRead
      = min (leadingFrom sizes left i + 1) left ∧
    (shutdownLoop sizes left i).count .Done = 0 ∧
    (∀ rest, shutdownLoop sizes left i ++ rest =
      (List.range' i (leadingFrom sizes left i)).foldr
        (fun j acc => .ReadLen (sizes j) :: .Sleep :: acc)
        ((if leadingFrom sizes left i < left then [.ReadLen 0] else []) ++ rest)) := by
  induction left generalizing i with
  | zero => simp [leadingFrom, shutdownLoop]
  | succ left ih =>
    by_cases h : sizes i = 0
    · rw [leadingFrom_stop sizes left i h]
      simp [shutdownLoop, h, ShutdownAction.isRead]
    · obtain ⟨h1, h2, h3, h4, h5, h6, h7⟩ := ih (i + 1)
      rw [leadingFrom_go sizes left i h]
      have hlt : ¬ sizes i < 1 := by omega
      refine ⟨by omega, ?_, ?_, ?_, ?_, ?_, ?_⟩
      · intro j hj
        cases j with
        | zero => simpa using h
        | succ j =>
          have := h2 j (by omega)
          have e : i + (j + 1) = i + 1 + j := by omega
          rw [e]; exact this
      · intro hk
        have := h3 (by omega)
        have e : i + (leadingFrom sizes left (i + 1) + 1) = i + 1 + leadingFrom sizes left (i + 1) := by
          omega
        rw [e]; exact this
      · simp [shutdownLoop, hlt, h4]
      · simp [shutdownLoop, hlt, h5, ShutdownAction.isRead]
        omega
      · simp [shutdownLoop, hlt, h6]
      · intro rest
        simp only [shutdownLoop, hlt, if_false, List.cons_append, List.range'_succ,
          List.foldr_cons, h7 rest, Nat.add_lt_add_iff_right]

/-- C10. Drain bound: for every sequence of tracker sizes seen by `shutdown`, with `k`
the number of leading non-zero sizes among the first ten, `shutdown` reads the size
`min (k + 1) 10` times, so at most ten times, sleeps exactly `k` times, once after each
non-zero read, stops reading at the first zero, and then calls `wg.Done()` exactly once
as its last call, whether or not a zero was ever read. With an empty tracker at the
start it reads once, does not sleep and signals completion. -/
theorem shutdown_drain_bound (sizes : Nat → Nat) :
    leadingNonZero sizes ≤ 10 ∧
    (∀ j, j < leadingNonZero sizes → sizes j ≠ 0) ∧
    (leadingNonZero sizes < 10 → sizes (leadingNonZero sizes) = 0) ∧
    (shutdown sizes).countP ShutdownAction.isRead = min (leadingNonZero sizes + 1) 10 ∧
    (shutdown sizes).countP ShutdownAction.isRead ≤ 10 ∧
    (shutdown sizes).count .Sleep = leadingNonZero sizes ∧
    (shutdown sizes).count .Done = 1 ∧
    (shutdown sizes).getLast? = some .Done ∧
    shutdown sizes =
      (List.range (leadingNonZero sizes)).foldr
        (fun j acc => .ReadLen (sizes j) :: .Sleep :: acc)
        ((if leadingNonZero sizes < 10 then [.ReadLen 0] else []) ++ [.Done]) ∧
    (sizes 0 = 0 → shutdown sizes = [.ReadLen 0, .Done]) ∧
    ((∀ j, j < 10 → sizes j ≠ 0) →
      (shutdown sizes).count .Sleep = 10 ∧ (shutdown sizes).count .Done = 1) := by
  obtain ⟨h1, h2, h3, h4, h5, h6, h7⟩ := shutdownLoop_spec sizes 10 0
  rw [← leadingNonZero_eq] at h1 h2 h3 h4 h5 h7
  have hform := h7 [.Done]
  rw [← List.range_eq_range'] at hform
  have hsleep : (shutdown sizes).count .Sleep = leadingNonZero sizes := by
    simp [shutdown, List.count_append, h4]
  have hdone : (shutdown sizes).count .Done = 1 := by
    simp [shutdown, List.count_append, h6]
  refine ⟨h1, ?_, ?_, ?_, ?_, hsleep, hdone, ?_, hform, ?_, ?_⟩
  · intro j hj
    simpa using h2 j hj
  · intro hk
    simpa using h3 hk
  · simp [shutdown, List.countP_append, h5, ShutdownAction.isRead]
  · simp [shutdown, List.countP_append, h5, ShutdownAction.isRead]
  · simp [shutdown]
  · intro h0
    simp [shutdown, shutdownLoop, h0]
  · intro hall
    refine ⟨?_, hdone⟩
    rw [hsleep]
    by_contra hne
    have hlt : leadingNonZero sizes < 10 := by omega
    exact hall _ hlt (by simpa using h3 hlt)

/-! ## Decode failure, one poll tick, worker cleanup -/

/-- C11: what the code does when the structured payload fails to decode. The failure
is only logged and the loop is entered. With `MessageStr` empty and a payload `5`, for
which the decoder reports an error after allocating the embed, the embed is sent and,
the call being rejected, the handler of the source is called. With a payload `x` that
leaves the embed nil and a non-empty `MessageStr`, the text is sent. -/
theorem decode_failure_still_sends :
    (decodeEmbed (brokenEnv (some "") [some (.rest ⟨some 400, none⟩)])
      { demoElem with MessageStr := "", MessageEmbed := "5" }).2
      = [.Log "MQueue: Failed decoding message embed"] ∧
    (process (brokenEnv (some "") [some (.rest ⟨some 400, none⟩)]) 1 [7]
      { demoElem with MessageStr := "", MessageEmbed := "5" }).trace =
      [.Log "MQueue: Failed decoding message embed",
       .ChannelMessageSendEmbed 123 "",
       .HandleMQueueError { demoElem with MessageStr := "", MessageEmbed := "5" }
         (.rest ⟨some 400, none⟩),
       .Save { demoElem with MessageStr := "", MessageEmbed := "5", Processed := true }] ∧
    (process (brokenEnv none []) 1 [7] { demoElem with MessageEmbed := "x" }).trace =
      [.Log "MQueue: Failed decoding message embed",
       .ChannelMessageSend 123 "hi",
       .Save { demoElem with MessageEmbed := "x", Processed := true }] :=
  ⟨rfl, rfl, rfl⟩

/-- C12. One poll tick dispatches exactly the new records: for every tracker `T` and
every list `elems` returned by the store, `poll` starts a worker for exactly the
elements of `elems` whose id is not in the snapshot of `T`, in the order of `elems`,
and the tracker afterwards is `T` followed by the ids of those elements; an element
whose id is in the snapshot gets no worker; when the store query fails the tracker is
unchanged and no worker is started. The same holds for the insert loop when the
tracker has changed since the snapshot: it appends to the tracker it finds. -/
theorem poll_dispatches_new (T : List Int) (elems : List QueuedElement) :
    (poll T (some elems)).2 = elems.filter (fun v => decide (v.ID ∉ T)) ∧
    (poll T (some elems)).1 = T ++ (poll T (some elems)).2.map (fun v => v.ID) ∧
    (poll T (some elems)).2.Sublist elems ∧
    (∀ v, v ∈ (poll T (some elems)).2 ↔ v ∈ elems ∧ v.ID ∉ T) ∧
    (∀ v, v ∈ elems → v.ID ∈ T → v ∉ (poll T (some elems)).2) ∧
    (∀ v, v.ID ∉ T → (poll T (some elems)).2.count v = elems.count v) ∧
    poll T none = (T, []) ∧
    (∀ cur, pollInsert T elems cur [] =
      (cur ++ (poll T (some elems)).2.map (fun v => v.ID), (poll T (some elems)).2)) := by
  have hp : poll T (some elems) =
      (T ++ (elems.filter (fun v => decide (v.ID ∉ T))).map (fun v => v.ID),
       elems.filter (fun v => decide (v.ID ∉ T))) := by
    simp [poll, pollInsert_eq]
  rw [hp]
  refine ⟨rfl, rfl, List.filter_sublist elems, ?_, ?_, ?_, rfl, ?_⟩
  · intro v
    simp [List.mem_filter]
  · intro v _ hT hmem
    simp only [List.mem_filter] at hmem
    simp [hT] at hmem
  · intro v hv
    rw [List.count_filter]
    simpa using hv
  · intro cur
    simp [pollInsert_eq]

/-- C13. Worker cleanup only releases its own tracker slot: for every tracker `T` and
id `x`, the removal loop of the deferred function yields `T` without the first
occurrence of `x`. Every other id keeps its presence and multiplicity, the other ids
keep their relative order, the length drops by exactly one when `x` is in `T` (as does
the multiplicity of `x`), and `T` is unchanged when `x` is not in `T`. This is the
tracker a returned run of `process` leaves for an element with id `x`. -/
theorem cleanup_releases_own_slot (T : List Int) (x : Int) :
    removeProcessing T x = T.erase x ∧
    (x ∈ T → ∃ pre post, T = pre ++ x :: post ∧ x ∉ pre ∧
      removeProcessing T x = pre ++ post) ∧
    (∀ y, y ≠ x → (y ∈ removeProcessing T x ↔ y ∈ T)) ∧
    (∀ y, y ≠ x → (removeProcessing T x).count y = T.count y) ∧
    (removeProcessing T x).Sublist T ∧
    (removeProcessing T x).filter (fun y => decide (y ≠ x)) =
      T.filter (fun y => decide (y ≠ x)) ∧
    (x ∈ T → (removeProcessing T x).length + 1 = T.length) ∧
    (x ∈ T → (removeProcessing T x).count x + 1 = T.count x) ∧
    (x ∉ T → removeProcessing T x = T) ∧
    (∀ (E : Type) (env : Env E) (elem : QueuedElement) (fuel : Nat), elem.ID = x →
      (process env fuel T elem).returned = true →
      (process env fuel T elem).currentlyProcessing = removeProcessing T x) := by
  have he := removeProcessing_eq_erase T x
  refine ⟨he, ?_, ?_, ?_, ?_, ?_, ?_, ?_, ?_, ?_⟩
  · intro hx
    obtain ⟨pre, post, hpre, hT, herase⟩ := List.exists_erase_eq hx
    exact ⟨pre, post, hT, hpre, by rw [he, herase]⟩
  · intro y hy
    rw [he]
    exact List.mem_erase_of_ne hy
  · intro y hy
    rw [he]
    exact List.count_erase_of_ne hy T
  · rw [he]
    exact List.erase_sublist x T
  · clear he
    induction T with
    | nil => rfl
    | cons v rest ih =>
      by_cases h : v = x
      · simp [removeProcessing, h]
      · simp only [removeProcessing, h, if_false, List.filter_cons, ih]
  · intro hx
    rw [he, List.length_erase_of_mem hx]
    have : 0 < T.length := List.length_pos_of_mem hx
    omega
  · intro hx
    rw [he, List.count_erase_self]
    have : 0 < T.count x := List.count_pos_iff.mpr hx
    omega
  · intro hx
    rw [he]
    exact List.erase_of_not_mem hx
  · intro E env elem fuel hid hret
    rcases process_summary env fuel T elem with ⟨hr, _⟩ | ⟨_, _, hcur, _⟩
    · rw [hr] at hret; cases hret
    · rw [hcur, hid]

/-- Witness for C13: id 7 occurs twice, only its first occurrence goes, and 3 and 9
stay in place. -/
theorem cleanup_releases_own_slot_witness :
    removeProcessing [3, 7, 9, 7] 7 = [3, 9, 7] ∧
    (removeProcessing [3, 7, 9, 7] 7).length + 1 = [3, 7, 9, 7].length ∧
    removeProcessing [3, 9] 7 = [3, 9] :=
  ⟨by decide,
   (cleanup_releases_own_slot [3, 7, 9, 7] 7).2.2.2.2.2.2.1 (by decide),
   (cleanup_releases_own_slot [3, 9] 7).2.2.2.2.2.2.2.2.1 (by decide)⟩

end MQueue
